import Mathlib

set_option maxHeartbeats 1000000

/-!
Verification of the SMS retry scheduler repository (src/models.py,
src/scheduler.py, src/persistence.py).

Modelling conventions:
- Python floats holding epoch seconds are modelled as integers in a
  fixed scale of milliseconds: every timestamp and every retry-schedule
  value this program manipulates is an exact multiple of 0.5 s, so the
  scaling is an order- and arithmetic-preserving change of units.
- Python dictionaries and parsed JSON documents are modelled by the
  explicit value type JVal below; Python ints and floats are kept apart.
- Python exceptions from fallible collaborators are modelled by explicit
  result types (SendRes for the send function, Option for deserialisation).
-/

/-- JSON-style values, modelling the Python objects stored in message
metadata and in persisted JSON documents.  A jint is a Python int; a jnum
is a Python float, carried in the millisecond time scale of the model. -/
inductive JVal where
  | jnull : JVal
  | jbool : Bool → JVal
  | jint : Int → JVal
  | jnum : Int → JVal
  | jstr : String → JVal
  | jarr : List JVal → JVal
  | jobj : List (String × JVal) → JVal

/-- Status enum from models.py (class MessageStatus). -/
inductive MessageStatus where
  | PENDING : MessageStatus
  | SUCCESS : MessageStatus
  | FAILED_MAX_RETRIES : MessageStatus
deriving DecidableEq

/-- Mirrors the .value attribute of the Python enum members. -/
def MessageStatus.value : MessageStatus → String
  | .PENDING => "PENDING"
  | .SUCCESS => "SUCCESS"
  | .FAILED_MAX_RETRIES => "FAILED_MAX_RETRIES"

/-- Mirrors the MessageStatus(s) constructor call: a ValueError on an
unknown label is modelled by none. -/
def MessageStatus.fromValue (s : String) : Option MessageStatus :=
  if s = "PENDING" then some .PENDING
  else if s = "SUCCESS" then some .SUCCESS
  else if s = "FAILED_MAX_RETRIES" then some .FAILED_MAX_RETRIES
  else none

/-- Message dataclass from models.py.  The metadata field is an optional
mapping from strings to JSON-serialisable values. -/
structure Message where
  message_id : String
  content : String
  metadata : Option (List (String × JVal))

/-- MessageState dataclass from models.py. -/
structure MessageState where
  message_id : String
  message : Message
  attempt_count : Nat
  next_retry_at : Int
  status : MessageStatus
  created_at : Int
  updated_at : Int

/-- RETRY_SCHEDULE = [0, 0.5, 2, 4, 8, 16] seconds from models.py, in the
millisecond scale of the model. -/
def MessageState.RETRY_SCHEDULE : List Int := [0, 500, 2000, 4000, 8000, 16000]

/-- MAX_ATTEMPTS = 6 from models.py. -/
def MessageState.MAX_ATTEMPTS : Nat := 6

/-- Encoding of the optional metadata mapping inside asdict / to_dict:
None becomes JSON null, a dict stays a dict. -/
def encodeMeta : Option (List (String × JVal)) → JVal
  | none => .jnull
  | some m => .jobj m

/-- Decoding of the metadata position when rebuilding a Message. -/
def decodeMeta : JVal → Option (Option (List (String × JVal)))
  | .jnull => some none
  | .jobj m => some (some m)
  | _ => none

/-- Decoding of the attempt_count position: the model type is Nat, so a
negative integer (never produced by the scheduler) has no decoding. -/
def decodeCount : JVal → Option Nat
  | .jint (Int.ofNat k) => some k
  | _ => none

/-- Decoding of a timestamp position (a Python float). -/
def decodeTime : JVal → Option Int
  | .jnum q => some q
  | _ => none

/-- Message.to_dict, which is dataclasses.asdict on the Message. -/
def Message.to_dict (m : Message) : JVal :=
  .jobj [("message_id", .jstr m.message_id),
         ("content", .jstr m.content),
         ("metadata", encodeMeta m.metadata)]

/-- Message.from_dict(data) = cls(**data): requires the keyword keys and
rebuilds the dataclass. -/
def Message.from_dict : JVal → Option Message
  | .jobj l =>
    match l.lookup "message_id", l.lookup "content", l.lookup "metadata" with
    | some (.jstr i), some (.jstr c), some mv =>
      (match decodeMeta mv with
       | some md => some { message_id := i, content := c, metadata := md }
       | none => none)
    | _, _, _ => none
  | _ => none

/-- MessageState.to_dict from models.py: the seven fields, with the status
stored as its string label and the embedded message as its dict. -/
def MessageState.to_dict (st : MessageState) : JVal :=
  .jobj [("message_id", .jstr st.message_id),
         ("message", st.message.to_dict),
         ("attempt_count", .jint st.attempt_count),
         ("next_retry_at", .jnum st.next_retry_at),
         ("status", .jstr st.status.value),
         ("created_at", .jnum st.created_at),
         ("updated_at", .jnum st.updated_at)]

/-- MessageState.from_dict from models.py: reads the seven keys, rebuilding
the embedded Message and the status enum member; any failure is none. -/
def MessageState.from_dict : JVal → Option MessageState
  | .jobj l =>
    match l.lookup "message_id", l.lookup "message", l.lookup "attempt_count",
          l.lookup "next_retry_at", l.lookup "status", l.lookup "created_at",
          l.lookup "updated_at" with
    | some (.jstr i), some mj, some cj, some nj, some (.jstr sv), some aj, some uj =>
      (match Message.from_dict mj, decodeCount cj, decodeTime nj,
             MessageStatus.fromValue sv, decodeTime aj, decodeTime uj with
       | some m, some c, some nra, some s, some ca, some ua =>
         some { message_id := i, message := m, attempt_count := c,
                next_retry_at := nra, status := s, created_at := ca, updated_at := ua }
       | _, _, _, _, _, _ => none)
    | _, _, _, _, _, _, _ => none
  | _ => none

/-- MessageState.to_json, modelled at the level of the parsed JSON
document: json.dumps renders the dictionary produced by to_dict, and that
text parses back to the same document (Python ints and floats round-trip
through their repr), so the serialised form is represented by the document
itself. -/
def MessageState.to_json (st : MessageState) : JVal := st.to_dict

/-- MessageState.from_json, which is from_dict after json.loads; the parsed
document is the model of the JSON text. -/
def MessageState.from_json (j : JVal) : Option MessageState :=
  MessageState.from_dict j

/-- C9: for every well-formed MessageState (fields of the declared types,
metadata a JSON-serialisable mapping), deserialisation inverts
serialisation, both through the dict form and through the JSON form. -/
theorem C9_serialisation_roundtrip (st : MessageState) :
    MessageState.from_dict st.to_dict = some st ∧
    MessageState.from_json st.to_json = some st := by
  obtain ⟨i, ⟨mi, mc, md⟩, c, nra, s, ca, ua⟩ := st
  cases md <;> cases s <;> exact ⟨rfl, rfl⟩

/-! ## In-memory index (Python dict keyed by message_id) -/

/-- Lookup in the in-memory index (message_map access and membership). -/
def mapLookup : List (String × MessageState) → String → Option MessageState
  | [], _ => none
  | (k, v) :: rest, id => if k = id then some v else mapLookup rest id

/-- Index write message_map[id] = st: a Python dict overwrites an existing
entry in place and otherwise appends at the end (insertion order). -/
def mapInsert : List (String × MessageState) → String → MessageState →
    List (String × MessageState)
  | [], id, v => [(id, v)]
  | (k, w) :: rest, id, v =>
    if k = id then (id, v) :: rest else (k, w) :: mapInsert rest id v

/-- Index delete del message_map[id]: removes the entry with the key. -/
def mapErase : List (String × MessageState) → String →
    List (String × MessageState)
  | [], _ => []
  | (k, w) :: rest, id => if k = id then rest else (k, w) :: mapErase rest id

/-! ## Retry heap (Python heapq on pairs (next_retry_at, message_id)) -/

/-- Python string comparison, lexicographic on code points, implemented on
the character lists so that it evaluates by kernel reduction. -/
def strLtb : List Char → List Char → Bool
  | [], [] => false
  | [], _ :: _ => true
  | _ :: _, [] => false
  | a :: as, b :: bs =>
    if a.toNat < b.toNat then true
    else if b.toNat < a.toNat then false
    else strLtb as bs

/-- Python tuple comparison on the (float, str) heap pairs, lexicographic:
first the times, then the message ids. -/
def tupLE (e x : Int × String) : Bool :=
  if e.1 < x.1 then true
  else if x.1 < e.1 then false
  else !strLtb x.2.data e.2.data

/-- The retry heap is modelled as a list sorted by the tuple order; heapq
exposes exactly peek-minimum (heap[0]), pop-minimum (heappop) and insert
(heappush), which the sorted list implements observably identically. -/
def heapPush : List (Int × String) → (Int × String) → List (Int × String)
  | [], e => [e]
  | x :: xs, e => if tupLE e x then e :: x :: xs else x :: heapPush xs e

/-! ## Scheduler state (SMSScheduler fields) -/

/-- Result of one call of the injected send function: a returned boolean or
a raised exception. -/
inductive SendRes where
  | ok : Bool → SendRes
  | exn : SendRes
deriving DecidableEq

/-- Observable calls the scheduler makes on its collaborators: one entry
per invocation of the send function (with the tick clock and the state of
the message just before the call) and one per persistence operation. -/
inductive Event where
  | sendCall : String → Int → MessageState → Event
  | saveState : String → MessageState → Event
  | markSuccess : String → MessageState → Event
  | markFailed : String → MessageState → Event

/-- SMSScheduler instance state: the heap, the index, the running flag, the
four stats counters (Python ints) and the log of collaborator calls. -/
structure Sched where
  retry_heap : List (Int × String)
  message_map : List (String × MessageState)
  running : Bool
  total_messages : Int
  total_success : Int
  total_failed : Int
  in_progress : Int
  events : List Event

/-- Scheduler as constructed by SMSScheduler.__init__: empty heap and
index, running false, zeroed counters. -/
def freshSched : Sched :=
  { retry_heap := [], message_map := [], running := false,
    total_messages := 0, total_success := 0, total_failed := 0,
    in_progress := 0, events := [] }

/-- A send behaviour: the outcome of calling the injected send function on
a message when the state's attempt_count has the given value.  This
determinises the injected callable per message and per call number. -/
def SendFun : Type := Message → Nat → SendRes

/-- SMSScheduler._attempt_send: calls the send function, then increments
attempt_count and sets updated_at to the clock whether the call returned
true, returned false, or raised; a raise is treated as failure. -/
def attemptSend (send : SendFun) (now : Int) (st : MessageState) :
    MessageState × Bool :=
  let res := send st.message st.attempt_count
  let st' := { st with attempt_count := st.attempt_count + 1, updated_at := now }
  (st', match res with | .ok b => b | .exn => false)

/-- SMSScheduler._handle_success: set SUCCESS and updated_at, delete from
the index, bump total_success, drop in_progress, call mark_success. -/
def handleSuccess (now : Int) (st : MessageState) (sc : Sched) : Sched :=
  let st' := { st with status := MessageStatus.SUCCESS, updated_at := now }
  { sc with
    message_map := mapErase sc.message_map st'.message_id,
    total_success := sc.total_success + 1,
    in_progress := sc.in_progress - 1,
    events := sc.events ++ [Event.markSuccess st'.message_id st'] }

/-- SMSScheduler._handle_failure: set FAILED_MAX_RETRIES and updated_at,
delete from the index, bump total_failed, drop in_progress, call
mark_failed. -/
def handleFailure (now : Int) (st : MessageState) (sc : Sched) : Sched :=
  let st' := { st with status := MessageStatus.FAILED_MAX_RETRIES, updated_at := now }
  { sc with
    message_map := mapErase sc.message_map st'.message_id,
    total_failed := sc.total_failed + 1,
    in_progress := sc.in_progress - 1,
    events := sc.events ++ [Event.markFailed st'.message_id st'] }

/-- SMSScheduler._schedule_next_retry: if attempt_count is within the
schedule, set next_retry_at = created_at + RETRY_SCHEDULE[attempt_count],
push (next_retry_at, message_id) onto the heap and persist the state via
save_message_state; the write into the index models the in-place mutation
of the aliased state object. -/
def scheduleNextRetry (st : MessageState) (sc : Sched) : Sched :=
  if h : st.attempt_count < MessageState.RETRY_SCHEDULE.length then
    let delay := MessageState.RETRY_SCHEDULE.get ⟨st.attempt_count, h⟩
    let st' := { st with next_retry_at := st.created_at + delay }
    { sc with
      retry_heap := heapPush sc.retry_heap (st'.next_retry_at, st'.message_id),
      message_map := mapInsert sc.message_map st'.message_id st',
      events := sc.events ++ [Event.saveState st'.message_id st'] }
  else sc

/-- SMSScheduler.newMessage: build the initial PENDING state at the current
clock, store it in the index, bump total_messages and in_progress, attempt
the immediate first send (writing the mutated state back into the index,
as the aliasing does), then transition on the outcome. -/
def newMessage (send : SendFun) (now : Int) (msg : Message) (sc : Sched) : Sched :=
  let st : MessageState :=
    { message_id := msg.message_id, message := msg, attempt_count := 0,
      next_retry_at := now, status := MessageStatus.PENDING,
      created_at := now, updated_at := now }
  let sc1 := { sc with
    message_map := mapInsert sc.message_map msg.message_id st,
    total_messages := sc.total_messages + 1,
    in_progress := sc.in_progress + 1 }
  let r := attemptSend send now st
  let sc2 := { sc1 with
    message_map := mapInsert sc1.message_map msg.message_id r.1,
    events := sc1.events ++ [Event.sendCall msg.message_id now st] }
  if r.2 then handleSuccess now r.1 sc2 else scheduleNextRetry r.1 sc2

/-- Weight of one index entry, used to bound the wakeup drain loop. -/
def entryWeight (st : MessageState) : Nat :=
  MessageState.MAX_ATTEMPTS + 1 - st.attempt_count

/-- Total index weight. -/
def mapWeight (m : List (String × MessageState)) : Nat :=
  (m.map fun p => entryWeight p.2).sum

/-- Loop measure for the wakeup drain: every executed iteration strictly
decreases it (it pops one heap entry, and pushes one back only after
incrementing the popped message's attempt_count). -/
def msize (sc : Sched) : Nat :=
  sc.retry_heap.length + mapWeight sc.message_map

/-- Body of the while-loop of SMSScheduler.wakeup, with the recursive call
fuelled; wakeupGo (msize sc) sc runs the loop to its natural exit (theorem
wakeup_fix below certifies the fixpoint equation). -/
def wakeupGo (send : SendFun) (now : Int) : Nat → Sched → Sched
  | 0, sc => sc
  | fuel + 1, sc =>
    match sc.retry_heap with
    | [] => sc
    | (next_time, message_id) :: rest =>
      if next_time > now then sc
      else
        let sc1 := { sc with retry_heap := rest }
        match mapLookup sc1.message_map message_id with
        | none => wakeupGo send now fuel sc1
        | some st =>
          if st.status ≠ MessageStatus.PENDING then wakeupGo send now fuel sc1
          else
            let r := attemptSend send now st
            let sc2 := { sc1 with
              message_map := mapInsert sc1.message_map message_id r.1,
              events := sc1.events ++ [Event.sendCall message_id now st] }
            if r.2 then wakeupGo send now fuel (handleSuccess now r.1 sc2)
            else
              if MessageState.MAX_ATTEMPTS ≤ r.1.attempt_count then
                wakeupGo send now fuel (handleFailure now r.1 sc2)
              else wakeupGo send now fuel (scheduleNextRetry r.1 sc2)

/-- SMSScheduler.wakeup: return immediately unless running, then drain
every heap entry whose time is due at the current clock. -/
def wakeup (send : SendFun) (now : Int) (sc : Sched) : Sched :=
  if sc.running then wakeupGo send now (msize sc) sc else sc

/-! ## Driving the scheduler: intake and tick events -/

/-- One external event: an intake (newMessage at a clock reading) or a
tick (one wakeup call at a clock reading). -/
inductive Op where
  | intake : Int → Message → Op
  | tick : Int → Op

/-- Apply one external event. -/
def applyOp (send : SendFun) (sc : Sched) : Op → Sched
  | .intake now msg => newMessage send now msg sc
  | .tick now => wakeup send now sc

/-- Run a sequence of external events. -/
def run (send : SendFun) (sc : Sched) (ops : List Op) : Sched :=
  ops.foldl (applyOp send) sc

/-- Message ids of the intake events of a run, in order. -/
def intakeIds (ops : List Op) : List String :=
  ops.filterMap fun op => match op with
    | .intake _ m => some m.message_id
    | .tick _ => none

/-! ## Lemmas about the index and the heap -/

theorem mapLookup_mapInsert_self (m : List (String × MessageState)) (id : String)
    (v : MessageState) : mapLookup (mapInsert m id v) id = some v := by
  induction m with
  | nil => simp [mapInsert, mapLookup]
  | cons p rest ih =>
    obtain ⟨k, w⟩ := p
    by_cases h : k = id
    · simp [mapInsert, mapLookup, h]
    · simp [mapInsert, mapLookup, h, ih]

theorem mapLookup_mapInsert_ne (m : List (String × MessageState)) {id id' : String}
    (v : MessageState) (h : id' ≠ id) :
    mapLookup (mapInsert m id v) id' = mapLookup m id' := by
  induction m with
  | nil => simp [mapInsert, mapLookup, Ne.symm h]
  | cons p rest ih =>
    obtain ⟨k, w⟩ := p
    by_cases hk : k = id
    · subst hk
      simp [mapInsert, mapLookup, Ne.symm h]
    · simp [mapInsert, mapLookup, hk, ih]

theorem mapLookup_mem {m : List (String × MessageState)} {id : String}
    {st : MessageState} (h : mapLookup m id = some st) : (id, st) ∈ m := by
  induction m with
  | nil => simp [mapLookup] at h
  | cons p rest ih =>
    obtain ⟨k, w⟩ := p
    by_cases hk : k = id
    · subst hk
      simp [mapLookup] at h
      simp [h]
    · simp [mapLookup, hk] at h
      exact List.mem_cons_of_mem _ (ih h)

theorem mapInsert_mapInsert (m : List (String × MessageState)) (id : String)
    (v w : MessageState) : mapInsert (mapInsert m id v) id w = mapInsert m id w := by
  induction m with
  | nil => simp [mapInsert]
  | cons p rest ih =>
    obtain ⟨k, u⟩ := p
    by_cases hk : k = id
    · simp [mapInsert, hk]
    · simp [mapInsert, hk, ih]

theorem mapErase_mapInsert (m : List (String × MessageState)) (id : String)
    (v : MessageState) : mapErase (mapInsert m id v) id = mapErase m id := by
  induction m with
  | nil => simp [mapInsert, mapErase]
  | cons p rest ih =>
    obtain ⟨k, u⟩ := p
    by_cases hk : k = id
    · simp [mapInsert, mapErase, hk]
    · simp [mapInsert, mapErase, hk, ih]

theorem mapErase_of_lookup_none {m : List (String × MessageState)} {id : String}
    (h : mapLookup m id = none) : mapErase m id = m := by
  induction m with
  | nil => simp [mapErase]
  | cons p rest ih =>
    obtain ⟨k, u⟩ := p
    by_cases hk : k = id
    · simp [mapLookup, hk] at h
    · simp [mapLookup, hk] at h
      simp [mapErase, hk, ih h]

theorem mapLookup_mapErase_ne (m : List (String × MessageState)) {id id' : String}
    (h : id' ≠ id) : mapLookup (mapErase m id) id' = mapLookup m id' := by
  induction m with
  | nil => simp [mapErase]
  | cons p rest ih =>
    obtain ⟨k, u⟩ := p
    by_cases hk : k = id
    · subst hk
      simp [mapErase, mapLookup, Ne.symm h]
    · simp [mapErase, mapLookup, hk, ih]

theorem length_mapInsert_some {m : List (String × MessageState)} {id : String}
    (v : MessageState) (h : (mapLookup m id).isSome) :
    (mapInsert m id v).length = m.length := by
  induction m with
  | nil => simp [mapLookup] at h
  | cons p rest ih =>
    obtain ⟨k, u⟩ := p
    by_cases hk : k = id
    · simp [mapInsert, hk]
    · simp [mapLookup, hk] at h
      simp [mapInsert, hk, ih h]

theorem length_mapInsert_none {m : List (String × MessageState)} {id : String}
    (v : MessageState) (h : mapLookup m id = none) :
    (mapInsert m id v).length = m.length + 1 := by
  induction m with
  | nil => simp [mapInsert]
  | cons p rest ih =>
    obtain ⟨k, u⟩ := p
    by_cases hk : k = id
    · simp [mapLookup, hk] at h
    · simp [mapLookup, hk] at h
      simp [mapInsert, hk, ih h]

theorem length_mapErase_some {m : List (String × MessageState)} {id : String}
    (h : (mapLookup m id).isSome) : (mapErase m id).length + 1 = m.length := by
  induction m with
  | nil => simp [mapLookup] at h
  | cons p rest ih =>
    obtain ⟨k, u⟩ := p
    by_cases hk : k = id
    · simp [mapErase, hk]
    · simp [mapLookup, hk] at h
      simp [mapErase, hk, ih h]

theorem mem_mapInsert {m : List (String × MessageState)} {id : String}
    {v : MessageState} {p : String × MessageState} (hp : p ∈ mapInsert m id v) :
    p = (id, v) ∨ p ∈ m := by
  induction m with
  | nil => simp [mapInsert] at hp; simp [hp]
  | cons q rest ih =>
    obtain ⟨k, u⟩ := q
    by_cases hk : k = id
    · simp [mapInsert, hk] at hp
      rcases hp with hp | hp
      · exact Or.inl (by simp [hp])
      · exact Or.inr (List.mem_cons_of_mem _ hp)
    · simp [mapInsert, hk] at hp
      rcases hp with hp | hp
      · exact Or.inr (by simp [hp])
      · rcases ih hp with h1 | h1
        · exact Or.inl h1
        · exact Or.inr (List.mem_cons_of_mem _ h1)

theorem mem_mapErase {m : List (String × MessageState)} {id : String}
    {p : String × MessageState} (hp : p ∈ mapErase m id) : p ∈ m := by
  induction m with
  | nil => simp [mapErase] at hp
  | cons q rest ih =>
    obtain ⟨k, u⟩ := q
    by_cases hk : k = id
    · simp [mapErase, hk] at hp
      exact List.mem_cons_of_mem _ hp
    · simp [mapErase, hk] at hp
      rcases hp with hp | hp
      · simp [hp]
      · exact List.mem_cons_of_mem _ (ih hp)

theorem keys_mapInsert_some {m : List (String × MessageState)} {id : String}
    (v : MessageState) (h : (mapLookup m id).isSome) :
    (mapInsert m id v).map Prod.fst = m.map Prod.fst := by
  induction m with
  | nil => simp [mapLookup] at h
  | cons p rest ih =>
    obtain ⟨k, u⟩ := p
    by_cases hk : k = id
    · simp [mapInsert, hk]
    · simp [mapLookup, hk] at h
      simp [mapInsert, hk, ih h]

theorem keys_mapInsert_none {m : List (String × MessageState)} {id : String}
    (v : MessageState) (h : mapLookup m id = none) :
    (mapInsert m id v).map Prod.fst = m.map Prod.fst ++ [id] := by
  induction m with
  | nil => simp [mapInsert]
  | cons p rest ih =>
    obtain ⟨k, u⟩ := p
    by_cases hk : k = id
    · simp [mapLookup, hk] at h
    · simp [mapLookup, hk] at h
      simp [mapInsert, hk, ih h]

theorem keys_mapErase_sublist (m : List (String × MessageState)) (id : String) :
    ((mapErase m id).map Prod.fst).Sublist (m.map Prod.fst) := by
  induction m with
  | nil => simp [mapErase]
  | cons p rest ih =>
    obtain ⟨k, u⟩ := p
    by_cases hk : k = id
    · simp [mapErase, hk]
    · simp only [mapErase, hk, if_false, List.map_cons]
      exact ih.cons₂ _

theorem heapPush_length (h : List (Int × String)) (e : Int × String) :
    (heapPush h e).length = h.length + 1 := by
  induction h with
  | nil => simp [heapPush]
  | cons x xs ih =>
    by_cases hle : tupLE e x
    · simp [heapPush, hle]
    · simp [heapPush, hle, ih]

theorem mem_heapPush {h : List (Int × String)} {e x : Int × String} :
    x ∈ heapPush h e ↔ x = e ∨ x ∈ h := by
  induction h with
  | nil => simp [heapPush]
  | cons y ys ih =>
    by_cases hle : tupLE e y
    · simp [heapPush, hle]
    · simp [heapPush, hle, ih]
      tauto

/-- Heap entries carrying the given message id, in heap order. -/
def heapFor (h : List (Int × String)) (id : String) : List (Int × String) :=
  h.filter fun e => e.2 == id

theorem heapFor_nil_of {h : List (Int × String)} {id : String}
    (hh : ∀ e ∈ h, e.2 ≠ id) : heapFor h id = [] := by
  simp only [heapFor, List.filter_eq_nil_iff]
  intro e he
  simpa using hh e he

theorem heapFor_cons_ne {e : Int × String} {h : List (Int × String)} {id : String}
    (hid : e.2 ≠ id) : heapFor (e :: h) id = heapFor h id := by
  simp [heapFor, List.filter_cons, hid]

theorem heapFor_cons_eq {e : Int × String} {h : List (Int × String)} {id : String}
    (hid : e.2 = id) : heapFor (e :: h) id = e :: heapFor h id := by
  simp [heapFor, List.filter_cons, hid]

theorem heapPush_cons_pos {e y : Int × String} {ys : List (Int × String)}
    (hle : tupLE e y = true) : heapPush (y :: ys) e = e :: y :: ys := by
  simp [heapPush, hle]

theorem heapPush_cons_neg {e y : Int × String} {ys : List (Int × String)}
    (hle : tupLE e y = false) : heapPush (y :: ys) e = y :: heapPush ys e := by
  simp [heapPush, hle]

theorem heapFor_heapPush_ne {e : Int × String} {h : List (Int × String)} {id : String}
    (hid : e.2 ≠ id) : heapFor (heapPush h e) id = heapFor h id := by
  induction h with
  | nil => simp [heapPush, heapFor, List.filter_cons, hid]
  | cons y ys ih =>
    cases hle : tupLE e y
    · rw [heapPush_cons_neg hle]
      by_cases hy : y.2 = id
      · rw [heapFor_cons_eq hy, heapFor_cons_eq hy, ih]
      · rw [heapFor_cons_ne hy, heapFor_cons_ne hy, ih]
    · rw [heapPush_cons_pos hle, heapFor_cons_ne hid]

theorem heapFor_heapPush_eq {e : Int × String} {h : List (Int × String)} {id : String}
    (hid : e.2 = id) (hnil : heapFor h id = []) :
    heapFor (heapPush h e) id = [e] := by
  induction h with
  | nil => simp [heapPush, heapFor, List.filter_cons, hid]
  | cons y ys ih =>
    have hy : y.2 ≠ id := by
      intro hcon
      rw [heapFor_cons_eq hcon] at hnil
      simp at hnil
    rw [heapFor_cons_ne hy] at hnil
    cases hle : tupLE e y
    · rw [heapPush_cons_neg hle, heapFor_cons_ne hy, ih hnil]
    · rw [heapPush_cons_pos hle, heapFor_cons_eq hid, heapFor_cons_ne hy, hnil]

/-! ## Claims about the local operations -/

/-- C6: one call of _attempt_send increments attempt_count by exactly one
and sets updated_at to the clock, whatever the send outcome (returned true,
returned false, or raised), and the returned flag is true exactly when the
send function returned true, so a raise is mapped to failure rather than
propagating. -/
theorem C6_attempt_send_contract (send : SendFun) (now : Int) (st : MessageState) :
    (attemptSend send now st).1.attempt_count = st.attempt_count + 1 ∧
    (attemptSend send now st).1.updated_at = now ∧
    ((attemptSend send now st).2 = true ↔
      send st.message st.attempt_count = SendRes.ok true) := by
  refine ⟨rfl, rfl, ?_⟩
  unfold attemptSend
  cases h : send st.message st.attempt_count with
  | ok b => cases b <;> simp
  | exn => simp

/-- C2: when an attempt has just failed and the post-attempt attempt_count
is still below MAX_ATTEMPTS, _schedule_next_retry stores back the state
with next_retry_at = created_at + RETRY_SCHEDULE[attempt_count] (the
schedule indexed by the already-incremented count), pushes the pair
(next_retry_at, message_id) onto the retry heap, and the stored state is
still PENDING. -/
theorem C2_schedule_next_retry (st : MessageState) (sc : Sched)
    (hc : st.attempt_count < MessageState.MAX_ATTEMPTS)
    (hs : st.status = MessageStatus.PENDING) :
    mapLookup (scheduleNextRetry st sc).message_map st.message_id =
      some { st with next_retry_at :=
        st.created_at + MessageState.RETRY_SCHEDULE.getD st.attempt_count 0 } ∧
    (scheduleNextRetry st sc).retry_heap =
      heapPush sc.retry_heap
        (st.created_at + MessageState.RETRY_SCHEDULE.getD st.attempt_count 0,
          st.message_id) ∧
    ({ st with next_retry_at :=
        st.created_at + MessageState.RETRY_SCHEDULE.getD st.attempt_count 0 }
      : MessageState).status = MessageStatus.PENDING := by
  have hlen : st.attempt_count < MessageState.RETRY_SCHEDULE.length := by
    simpa [MessageState.RETRY_SCHEDULE, MessageState.MAX_ATTEMPTS] using hc
  have hD : MessageState.RETRY_SCHEDULE.getD st.attempt_count 0 =
      MessageState.RETRY_SCHEDULE.get ⟨st.attempt_count, hlen⟩ :=
    List.getD_eq_get _ _ hlen
  unfold scheduleNextRetry
  rw [dif_pos hlen]
  refine ⟨?_, ?_, ?_⟩
  · rw [hD]
    exact mapLookup_mapInsert_self _ _ _
  · rw [hD]
  · simpa using hs

/-- Concrete message used by witnesses. -/
def w2msg : Message :=
  { message_id := "w2", content := "c", metadata := none }

/-- Concrete state used by the C2 witness: one failed attempt performed. -/
def w2st : MessageState :=
  { message_id := "w2", message := w2msg, attempt_count := 1,
    next_retry_at := 0, status := MessageStatus.PENDING,
    created_at := 0, updated_at := 0 }

/-- Witness for C2 at a concrete state and scheduler. -/
theorem C2_schedule_next_retry_witness :
    w2st.attempt_count < MessageState.MAX_ATTEMPTS ∧
    w2st.status = MessageStatus.PENDING ∧
    (mapLookup (scheduleNextRetry w2st freshSched).message_map "w2" =
      some { w2st with
        next_retry_at := w2st.created_at + MessageState.RETRY_SCHEDULE.getD 1 0 } ∧
    (scheduleNextRetry w2st freshSched).retry_heap =
      heapPush freshSched.retry_heap
        (w2st.created_at + MessageState.RETRY_SCHEDULE.getD 1 0, "w2")) := by
  refine ⟨by decide, rfl, ?_, ?_⟩
  · exact (C2_schedule_next_retry w2st freshSched (by decide) rfl).1
  · exact (C2_schedule_next_retry w2st freshSched (by decide) rfl).2.1

/-! ## Concrete scenarios -/

/-- Scheduler right after a start() whose recovery found nothing: running,
empty heap and index, zeroed counters. -/
def init₀ : Sched := { freshSched with running := true }

/-- Send behaviour that always returns False. -/
def sendAlwaysFalse : SendFun := fun _ _ => SendRes.ok false

/-- Message "m2" of the all-fail scenario. -/
def m2 : Message := { message_id := "m2", content := "hello", metadata := none }

/-- Intake of "m2" at clock 0, then one tick every 500 ms up to clock 16 s. -/
def c1Ops : List Op :=
  Op.intake 0 m2 :: (List.range 32).map fun i => Op.tick (500 * ((i : Int) + 1))

/-- Number of send-function invocations recorded for a message id. -/
def countSendsFor (evs : List Event) (id : String) : Nat :=
  evs.countP fun e => match e with
    | .sendCall i _ _ => i == id
    | _ => false

/-- Status and attempt_count carried by the last failure-log record written
for a message id, if any. -/
def failedRecordOf (evs : List Event) (id : String) : Option (MessageStatus × Nat) :=
  evs.reverse.findSome? fun e => match e with
    | .markFailed i st => if i == id then some (st.status, st.attempt_count) else none
    | _ => none

/-- C1: when every send attempt fails, after intake of "m2" and ticks every
500 ms through 16 s, the send function was invoked exactly 6 times for
"m2", a failure-log record with status FAILED_MAX_RETRIES and
attempt_count = 6 was written, and "m2" is gone from the in-memory
index. -/
theorem C1_all_fail_exhaustion :
    countSendsFor (run sendAlwaysFalse init₀ c1Ops).events "m2" = 6 ∧
    failedRecordOf (run sendAlwaysFalse init₀ c1Ops).events "m2" =
      some (MessageStatus.FAILED_MAX_RETRIES, 6) ∧
    (mapLookup (run sendAlwaysFalse init₀ c1Ops).message_map "m2").isNone = true := by
  refine ⟨by decide, by decide, by decide⟩

/-! ## Recovery (persistence.load_all_pending_states, _recover_from_s3) -/

/-- Result of reading and deserialising one object under the state prefix
during recovery: a decoded MessageState, or a record whose read or
deserialisation raised. -/
inductive LoadRes where
  | ok : MessageState → LoadRes
  | bad : LoadRes

/-- S3PersistenceLayer.load_all_pending_states: a failure of the whole
enumeration (the flag false) yields the empty recovery set; otherwise every
readable record whose status is PENDING is kept, in storage order, and
unreadable records are skipped. -/
def load_all_pending_states (enumOk : Bool) (objs : List LoadRes) :
    List MessageState :=
  if enumOk then
    objs.filterMap fun o => match o with
      | .ok st => if st.status = MessageStatus.PENDING then some st else none
      | .bad => none
  else []

/-- The clamp in _recover_from_s3: a next_retry_at lying in the past is
moved forward to the current clock, otherwise left unchanged. -/
def clampState (now : Int) (st : MessageState) : MessageState :=
  if st.next_retry_at < now then { st with next_retry_at := now } else st

/-- One iteration of the recovery loop: clamp, insert into the index, push
a heap entry. -/
def recoverStep (now : Int) (s : Sched) (st : MessageState) : Sched :=
  let st' := clampState now st
  { s with
    message_map := mapInsert s.message_map st'.message_id st',
    retry_heap := heapPush s.retry_heap (st'.next_retry_at, st'.message_id) }

/-- SMSScheduler._recover_from_s3: load the pending states, run the loop,
then set in_progress to the number of recovered states. -/
def recoverFromS3 (enumOk : Bool) (objs : List LoadRes) (now : Int)
    (sc : Sched) : Sched :=
  let pending := load_all_pending_states enumOk objs
  let sc' := pending.foldl (recoverStep now) sc
  { sc' with in_progress := (pending.length : Int) }

/-- SMSScheduler.start() from the not-running state: recovery, then the
running flag is set (the spawned wakeup thread is modelled by later tick
events). -/
def startSched (enumOk : Bool) (objs : List LoadRes) (now : Int) : Sched :=
  { recoverFromS3 enumOk objs now freshSched with running := true }

/-! ## Counterexamples from duplicate intake and from recovery -/

/-- Message of the record pre-seeded in storage for the C3 counterexample. -/
def r1msg : Message := { message_id := "r1", content := "z", metadata := none }

/-- Concrete PENDING state pre-seeded in storage for the C3 counterexample. -/
def r1st : MessageState :=
  { message_id := "r1", message := r1msg, attempt_count := 1,
    next_retry_at := 100, status := MessageStatus.PENDING,
    created_at := 0, updated_at := 0 }

/-- Counterexample to C3 as stated: a start() whose recovery loads one
PENDING record leaves total_messages = 0 but in_progress = 1, so
total_messages differs from total_success + total_failed + in_progress at
a quiescent point. -/
theorem C3_counterexample :
    (startSched true [LoadRes.ok r1st] 50).total_messages = 0 ∧
    (startSched true [LoadRes.ok r1st] 50).total_success = 0 ∧
    (startSched true [LoadRes.ok r1st] 50).total_failed = 0 ∧
    (startSched true [LoadRes.ok r1st] 50).in_progress = 1 ∧
    (startSched true [LoadRes.ok r1st] 50).total_messages ≠
      (startSched true [LoadRes.ok r1st] 50).total_success +
        (startSched true [LoadRes.ok r1st] 50).total_failed +
        (startSched true [LoadRes.ok r1st] 50).in_progress := by
  refine ⟨by decide, by decide, by decide, by decide, by decide⟩

/-- Message intaken twice for the C4 counterexample. -/
def mdup : Message := { message_id := "d1", content := "x", metadata := none }

/-- Counterexample to C4 as stated: intaking the same message_id twice
(send always failing) overwrites the index entry but increments in_progress
both times, so in_progress = 2 while the index holds 1 entry. -/
theorem C4_counterexample :
    (run sendAlwaysFalse init₀ [Op.intake 0 mdup, Op.intake 0 mdup]).in_progress
      = 2 ∧
    (run sendAlwaysFalse init₀ [Op.intake 0 mdup, Op.intake 0 mdup]).message_map.length
      = 1 ∧
    (run sendAlwaysFalse init₀ [Op.intake 0 mdup, Op.intake 0 mdup]).in_progress ≠
      ((run sendAlwaysFalse init₀ [Op.intake 0 mdup, Op.intake 0 mdup]).message_map.length
        : Int) := by
  refine ⟨by decide, by decide, by decide⟩

/-- Message of the C5 counterexample. -/
def c5msg : Message := { message_id := "m5", content := "y", metadata := none }

/-- Run of the C5 counterexample: intake "m5" at 0 s, intake it again at
0.3 s, tick at 0.5 s, with send always failing. -/
def c5Ops : List Op := [Op.intake 0 c5msg, Op.intake 300 c5msg, Op.tick 500]

/-- State of "m5" just before the send call triggered by the tick at 0.5 s:
the second intake reset attempt_count to 1 and created_at to 0.3 s, but the
stale heap entry from the first intake is still due at 0.5 s. -/
def c5Pre : MessageState :=
  { message_id := "m5", message := c5msg, attempt_count := 1,
    next_retry_at := 800, status := MessageStatus.PENDING,
    created_at := 300, updated_at := 300 }

/-- Counterexample to C5 as stated: with a duplicate intake of "m5", the
third send invocation for "m5" (so k = 2) happens at clock 0.5 s, which is
earlier than created_at + RETRY_SCHEDULE[2] for the created_at of either
intake (0 s or 0.3 s), and even earlier than created_at +
RETRY_SCHEDULE[attempt_count] for the state the call was made on. -/
theorem C5_counterexample :
    (run sendAlwaysFalse init₀ c5Ops).events.get? 4 =
      some (Event.sendCall "m5" 500 c5Pre) ∧
    countSendsFor ((run sendAlwaysFalse init₀ c5Ops).events.take 5) "m5" = 3 ∧
    (500 : Int) < 0 + MessageState.RETRY_SCHEDULE.getD 2 0 ∧
    (500 : Int) < c5Pre.created_at + MessageState.RETRY_SCHEDULE.getD 2 0 ∧
    (500 : Int) < c5Pre.created_at +
      MessageState.RETRY_SCHEDULE.getD c5Pre.attempt_count 0 := by
  refine ⟨rfl, by decide, by decide, by decide, by decide⟩

/-! ## Facts about the recovery loop -/

theorem clampState_message_id (now : Int) (st : MessageState) :
    (clampState now st).message_id = st.message_id := by
  unfold clampState
  split <;> rfl

theorem foldRecover_counters (now : Int) (l : List MessageState) (s : Sched) :
    (l.foldl (recoverStep now) s).total_success = s.total_success ∧
    (l.foldl (recoverStep now) s).total_failed = s.total_failed ∧
    (l.foldl (recoverStep now) s).total_messages = s.total_messages := by
  induction l generalizing s with
  | nil => exact ⟨rfl, rfl, rfl⟩
  | cons a l ih => exact ih (recoverStep now s a)

theorem foldRecover_lookup_untouched (now : Int) (l : List MessageState)
    (s : Sched) (id : String) (h : ∀ st ∈ l, st.message_id ≠ id) :
    mapLookup (l.foldl (recoverStep now) s).message_map id =
      mapLookup s.message_map id := by
  induction l generalizing s with
  | nil => rfl
  | cons a l ih =>
    rw [List.foldl_cons, ih _ fun st hst => h st (List.mem_cons_of_mem _ hst)]
    have ha : id ≠ (clampState now a).message_id := by
      rw [clampState_message_id]
      exact Ne.symm (h a (List.mem_cons_self a l))
    exact mapLookup_mapInsert_ne _ _ ha

theorem foldRecover_lookup_mem (now : Int) {l : List MessageState} (s : Sched)
    (hnd : (l.map MessageState.message_id).Nodup) {st : MessageState}
    (hst : st ∈ l) :
    mapLookup (l.foldl (recoverStep now) s).message_map st.message_id =
      some (clampState now st) := by
  induction l generalizing s with
  | nil => cases hst
  | cons a l ih =>
    rw [List.foldl_cons]
    rcases List.mem_cons.mp hst with h1 | h1
    · subst h1
      have hnotin : ∀ st2 ∈ l, st2.message_id ≠ st.message_id := by
        intro st2 hst2 heq
        exact (List.nodup_cons.mp hnd).1 (heq ▸ List.mem_map_of_mem _ hst2)
      rw [foldRecover_lookup_untouched now l _ _ hnotin]
      show mapLookup (mapInsert s.message_map (clampState now st).message_id
        (clampState now st)) st.message_id = some (clampState now st)
      rw [clampState_message_id]
      exact mapLookup_mapInsert_self _ _ _
    · exact ih _ (List.nodup_cons.mp hnd).2 h1

theorem foldRecover_heap_mono (now : Int) (l : List MessageState) (s : Sched)
    {e : Int × String} (he : e ∈ s.retry_heap) :
    e ∈ (l.foldl (recoverStep now) s).retry_heap := by
  induction l generalizing s with
  | nil => exact he
  | cons a l ih =>
    apply ih
    exact mem_heapPush.mpr (Or.inr he)

theorem foldRecover_heap_pushed (now : Int) {l : List MessageState}
    (s : Sched) {st : MessageState} (hst : st ∈ l) :
    ((clampState now st).next_retry_at, st.message_id) ∈
      (l.foldl (recoverStep now) s).retry_heap := by
  induction l generalizing s with
  | nil => cases hst
  | cons a l ih =>
    rw [List.foldl_cons]
    rcases List.mem_cons.mp hst with h1 | h1
    · subst h1
      apply foldRecover_heap_mono
      show ((clampState now st).next_retry_at, st.message_id) ∈
        heapPush s.retry_heap
          ((clampState now st).next_retry_at, (clampState now st).message_id)
      rw [clampState_message_id]
      exact mem_heapPush.mpr (Or.inl rfl)
    · exact ih _ h1

/-- C7: recovery on start() keeps exactly the readable PENDING records (a
global enumeration failure gives the empty set, an unreadable record is
skipped), clamps a past next_retry_at forward to the clock and otherwise
leaves it unchanged, inserts each recovered state into the index and pushes
a heap entry for it, sets in_progress to the number of recovered states,
and leaves total_success and total_failed unchanged. -/
theorem C7_recovery (enumOk : Bool) (objs : List LoadRes) (now : Int)
    (sc : Sched)
    (hids : ((load_all_pending_states enumOk objs).map
      MessageState.message_id).Nodup) :
    (enumOk = true → ∀ st : MessageState, LoadRes.ok st ∈ objs →
      st.status = MessageStatus.PENDING →
      st ∈ load_all_pending_states enumOk objs) ∧
    (∀ st ∈ load_all_pending_states enumOk objs,
      LoadRes.ok st ∈ objs ∧ st.status = MessageStatus.PENDING) ∧
    load_all_pending_states false objs = [] ∧
    (∀ st ∈ load_all_pending_states enumOk objs,
      mapLookup (recoverFromS3 enumOk objs now sc).message_map st.message_id =
        some (clampState now st) ∧
      (st.next_retry_at < now →
        clampState now st = { st with next_retry_at := now }) ∧
      (¬ st.next_retry_at < now → clampState now st = st) ∧
      ((clampState now st).next_retry_at, st.message_id) ∈
        (recoverFromS3 enumOk objs now sc).retry_heap) ∧
    (recoverFromS3 enumOk objs now sc).in_progress =
      ((load_all_pending_states enumOk objs).length : Int) ∧
    (recoverFromS3 enumOk objs now sc).total_success = sc.total_success ∧
    (recoverFromS3 enumOk objs now sc).total_failed = sc.total_failed := by
  refine ⟨?_, ?_, rfl, ?_, rfl, ?_, ?_⟩
  · intro he st hin hp
    subst he
    simp only [load_all_pending_states, if_true]
    rw [List.mem_filterMap]
    exact ⟨LoadRes.ok st, hin, by simp [hp]⟩
  · intro st hst
    cases enumOk with
    | false => simp [load_all_pending_states] at hst
    | true =>
      simp only [load_all_pending_states, if_true] at hst
      rw [List.mem_filterMap] at hst
      obtain ⟨o, ho, heq⟩ := hst
      cases o with
      | bad => simp at heq
      | ok st2 =>
        by_cases hp : st2.status = MessageStatus.PENDING
        · simp only [hp, if_pos, Option.some.injEq] at heq
          subst heq
          exact ⟨ho, hp⟩
        · simp [hp] at heq
  · intro st hst
    refine ⟨?_, ?_, ?_, ?_⟩
    · exact foldRecover_lookup_mem now sc hids hst
    · intro hlt
      simp [clampState, hlt]
    · intro hge
      simp [clampState, hge]
    · exact foldRecover_heap_pushed now sc hst
  · exact (foldRecover_counters now _ sc).1
  · exact (foldRecover_counters now _ sc).2.1

/-- Messages of the records used by the C7 witness. -/
def c7msg1 : Message := { message_id := "p1", content := "a", metadata := none }

/-- Second message of the C7 witness. -/
def c7msg2 : Message := { message_id := "p2", content := "b", metadata := none }

/-- A persisted PENDING record whose next_retry_at lies in the past. -/
def c7aSt : MessageState :=
  { message_id := "p1", message := c7msg1, attempt_count := 2,
    next_retry_at := 10, status := MessageStatus.PENDING,
    created_at := 0, updated_at := 0 }

/-- A persisted record that is no longer PENDING. -/
def c7bSt : MessageState :=
  { message_id := "p2", message := c7msg2, attempt_count := 1,
    next_retry_at := 0, status := MessageStatus.SUCCESS,
    created_at := 0, updated_at := 0 }

/-- Storage contents of the C7 witness: a past-due PENDING record, an
unreadable record, and a non-PENDING record. -/
def c7Objs : List LoadRes := [LoadRes.ok c7aSt, LoadRes.bad, LoadRes.ok c7bSt]

/-- Witness for C7 at concrete storage contents and clock 50. -/
theorem C7_recovery_witness :
    ((load_all_pending_states true c7Objs).map MessageState.message_id).Nodup ∧
    mapLookup (recoverFromS3 true c7Objs 50 freshSched).message_map "p1" =
      some (clampState 50 c7aSt) := by
  constructor
  · decide
  · have h := C7_recovery true c7Objs 50 freshSched (by decide)
    have hm : c7aSt ∈ load_all_pending_states true c7Objs := by
      show c7aSt ∈ [c7aSt]
      exact List.mem_singleton.mpr rfl
    exact (h.2.2.2.1 c7aSt hm).1

/-! ## Read-back of the success and failure logs (persistence.py) -/

/-- One stored S3 object: its key, its LastModified stamp, and its body
(none when get_object or the JSON parse raises for it). -/
structure S3Obj where
  key : String
  lastModified : Int
  body : Option JVal

/-- Modelled from the documented S3 list semantics that boto3 exposes
(external to this repository): list_objects_v2 returns at most MaxKeys
objects of the namespace, taken in ascending key order. -/
def listObjectsV2 (store : List S3Obj) (pfx : String) (maxKeys : Nat) :
    List S3Obj :=
  ((store.filter fun o => pfx.data.isPrefixOf o.key.data).insertionSort
      fun a b => strLtb b.key.data a.key.data = false).take maxKeys

/-- S3PersistenceLayer helper serving get_recent_success and
get_recent_failed: list with MaxKeys = limit, sort the listed objects by
LastModified descending (Python sorted, stable), take limit, read each
body, skipping objects whose read raises. -/
def getRecentUnder (store : List S3Obj) (pfx : String) (limit : Nat) :
    List JVal :=
  let resp := listObjectsV2 store pfx limit
  let objects :=
    (resp.insertionSort fun a b => b.lastModified ≤ a.lastModified).take limit
  objects.filterMap fun o => o.body

/-- Default success namespace (config S3_SUCCESS_PREFIX, default value). -/
def s3SuccessPfx : String := "success"

/-- Default failure namespace (config S3_FAILED_PREFIX, default value). -/
def s3FailedPfx : String := "failed"

/-- S3PersistenceLayer.get_recent_success, also what
SMSScheduler.get_recent_success passes through to. -/
def get_recent_success (store : List S3Obj) (limit : Nat) : List JVal :=
  getRecentUnder store s3SuccessPfx limit

/-- S3PersistenceLayer.get_recent_failed, also what
SMSScheduler.get_recent_failed passes through to. -/
def get_recent_failed (store : List S3Obj) (limit : Nat) : List JVal :=
  getRecentUnder store s3FailedPfx limit

/-- Older success-log record of the C8 failing input. -/
def c8Old : S3Obj :=
  { key := "success/2024-01-01T00:00:00_a.json", lastModified := 1,
    body := some (JVal.jstr "old") }

/-- Newer success-log record of the C8 failing input. -/
def c8New : S3Obj :=
  { key := "success/2024-01-02T00:00:00_b.json", lastModified := 2,
    body := some (JVal.jstr "new") }

/-- Success namespace holding two records. -/
def c8Store : List S3Obj := [c8Old, c8New]

/-- C8 evidence: with two records in the namespace and limit = 1, the code
returns the oldest record, not the most recently modified one, because
list_objects_v2 is called with MaxKeys = limit and so truncates in
ascending key order (oldest first under the time-sortable log keys) before
the sort by LastModified ever runs.  With limit covering the namespace the
result is correct, newest first. -/
theorem C8_truncates_before_sorting :
    c8Old.lastModified < c8New.lastModified ∧
    get_recent_success c8Store 1 = [JVal.jstr "old"] ∧
    get_recent_success c8Store 2 = [JVal.jstr "new", JVal.jstr "old"] := by
  refine ⟨by decide, rfl, rfl⟩

/-! ## The stats identity -/

/-- Surplus of the outcome counters over total_messages; intake and tick
leave it unchanged, recovery sets it to the number of recovered states. -/
def statsDelta (sc : Sched) : Int :=
  sc.total_success + sc.total_failed + sc.in_progress - sc.total_messages

theorem statsDelta_handleSuccess (now : Int) (st : MessageState) (sc : Sched) :
    statsDelta (handleSuccess now st sc) = statsDelta sc := by
  simp only [statsDelta, handleSuccess]
  omega

theorem statsDelta_handleFailure (now : Int) (st : MessageState) (sc : Sched) :
    statsDelta (handleFailure now st sc) = statsDelta sc := by
  simp only [statsDelta, handleFailure]
  omega

theorem statsDelta_scheduleNextRetry (st : MessageState) (sc : Sched) :
    statsDelta (scheduleNextRetry st sc) = statsDelta sc := by
  unfold scheduleNextRetry
  split <;> rfl

theorem statsDelta_newMessage (send : SendFun) (now : Int) (msg : Message)
    (sc : Sched) : statsDelta (newMessage send now msg sc) = statsDelta sc := by
  simp only [newMessage]
  split
  · rw [statsDelta_handleSuccess]
    simp only [statsDelta]
    omega
  · rw [statsDelta_scheduleNextRetry]
    simp only [statsDelta]
    omega

theorem statsDelta_wakeupGo (send : SendFun) (now : Int) (fuel : Nat)
    (sc : Sched) : statsDelta (wakeupGo send now fuel sc) = statsDelta sc := by
  induction fuel generalizing sc with
  | zero => rfl
  | succ fuel ih =>
    rw [wakeupGo]
    split
    · rfl
    · split
      · rfl
      · dsimp only
        split
        · rw [ih]
          rfl
        · split
          · rw [ih]
            rfl
          · split
            · rw [ih, statsDelta_handleSuccess]
              rfl
            · split
              · rw [ih, statsDelta_handleFailure]
                rfl
              · rw [ih, statsDelta_scheduleNextRetry]
                rfl

theorem statsDelta_applyOp (send : SendFun) (sc : Sched) (op : Op) :
    statsDelta (applyOp send sc op) = statsDelta sc := by
  cases op with
  | intake now msg => exact statsDelta_newMessage send now msg sc
  | tick now =>
    show statsDelta (wakeup send now sc) = statsDelta sc
    unfold wakeup
    split
    · exact statsDelta_wakeupGo send now _ sc
    · rfl

theorem statsDelta_run (send : SendFun) (sc : Sched) (ops : List Op) :
    statsDelta (run send sc ops) = statsDelta sc := by
  induction ops generalizing sc with
  | nil => rfl
  | cons op ops ih =>
    show statsDelta (run send (applyOp send sc op) ops) = statsDelta sc
    rw [ih, statsDelta_applyOp]

/-- C3 amended: after a completed start() and any sequence of intake and
tick events, the counters satisfy total_messages + R = total_success +
total_failed + in_progress, where R is the number of states the recovery
loaded; the claim as stated (without the R term) holds exactly when the
recovery set was empty. -/
theorem C3_stats_identity (enumOk : Bool) (objs : List LoadRes) (now0 : Int)
    (send : SendFun) (ops : List Op) :
    (run send (startSched enumOk objs now0) ops).total_messages +
      ((load_all_pending_states enumOk objs).length : Int) =
      (run send (startSched enumOk objs now0) ops).total_success +
        (run send (startSched enumOk objs now0) ops).total_failed +
        (run send (startSched enumOk objs now0) ops).in_progress := by
  have h := statsDelta_run send (startSched enumOk objs now0) ops
  have hc := foldRecover_counters now0 (load_all_pending_states enumOk objs)
    freshSched
  have hstart : statsDelta (startSched enumOk objs now0) =
      ((load_all_pending_states enumOk objs).length : Int) := by
    simp only [statsDelta, startSched, recoverFromS3]
    rw [hc.1, hc.2.1, hc.2.2]
    simp [freshSched]
  rw [hstart] at h
  unfold statsDelta at h
  omega

/-! ## Frame facts: operations on other messages leave a message alone -/

/-- Message id an event is about. -/
def Event.eventId : Event → String
  | .sendCall i _ _ => i
  | .saveState i _ => i
  | .markSuccess i _ => i
  | .markFailed i _ => i

/-- Whether an event is a persistence operation (everything except the
send-function call). -/
def Event.isPersist : Event → Bool
  | .sendCall _ _ _ => false
  | .saveState _ _ => true
  | .markSuccess _ _ => true
  | .markFailed _ _ => true

/-- The persistence operations performed for a given message id. -/
def persistFor (evs : List Event) (id : String) : List Event :=
  evs.filter fun e => e.isPersist && (e.eventId == id)

theorem persistFor_append (evs1 evs2 : List Event) (id : String) :
    persistFor (evs1 ++ evs2) id = persistFor evs1 id ++ persistFor evs2 id := by
  simp [persistFor]

theorem persistFor_append_sendCall (evs : List Event) (i : String) (t : Int)
    (st : MessageState) (id : String) :
    persistFor (evs ++ [Event.sendCall i t st]) id = persistFor evs id := by
  rw [persistFor_append]
  simp [persistFor, Event.isPersist]

theorem persistFor_append_markSuccess (evs : List Event) {i id : String}
    (st : MessageState) (hi : i ≠ id) :
    persistFor (evs ++ [Event.markSuccess i st]) id = persistFor evs id := by
  rw [persistFor_append]
  simp [persistFor, Event.isPersist, Event.eventId, hi]

theorem persistFor_append_markFailed (evs : List Event) {i id : String}
    (st : MessageState) (hi : i ≠ id) :
    persistFor (evs ++ [Event.markFailed i st]) id = persistFor evs id := by
  rw [persistFor_append]
  simp [persistFor, Event.isPersist, Event.eventId, hi]

theorem persistFor_append_saveState (evs : List Event) {i id : String}
    (st : MessageState) (hi : i ≠ id) :
    persistFor (evs ++ [Event.saveState i st]) id = persistFor evs id := by
  rw [persistFor_append]
  simp [persistFor, Event.isPersist, Event.eventId, hi]

/-- Well-keyed index: every entry's state carries the entry's key as its
message_id.  Holds in every reachable scheduler state. -/
def wfKeys (m : List (String × MessageState)) : Prop :=
  ∀ p ∈ m, p.2.message_id = p.1

theorem wfKeys_nil : wfKeys [] := by
  intro p hp
  cases hp

theorem wfKeys_mapInsert {m : List (String × MessageState)} {k : String}
    {v : MessageState} (h : wfKeys m) (hv : v.message_id = k) :
    wfKeys (mapInsert m k v) := by
  intro p hp
  rcases mem_mapInsert hp with h1 | h1
  · rw [h1]
    exact hv
  · exact h p h1

theorem wfKeys_mapErase {m : List (String × MessageState)} {k : String}
    (h : wfKeys m) : wfKeys (mapErase m k) :=
  fun p hp => h p (mem_mapErase hp)

theorem wfKeys_lookup {m : List (String × MessageState)} {id : String}
    {st : MessageState} (h : wfKeys m) (hl : mapLookup m id = some st) :
    st.message_id = id :=
  h (id, st) (mapLookup_mem hl)

/-- A message id that the scheduler state carries no trace of, with a
well-keyed index. -/
def CleanFor (id : String) (sc : Sched) : Prop :=
  mapLookup sc.message_map id = none ∧ (∀ e ∈ sc.retry_heap, e.2 ≠ id) ∧
    wfKeys sc.message_map

theorem handleSuccess_clean {id : String} {sc : Sched} (now : Int)
    {st : MessageState} (hne : st.message_id ≠ id) (h : CleanFor id sc) :
    CleanFor id (handleSuccess now st sc) ∧
    persistFor (handleSuccess now st sc).events id = persistFor sc.events id := by
  obtain ⟨hm, hh, hwf⟩ := h
  refine ⟨⟨?_, hh, wfKeys_mapErase hwf⟩, ?_⟩
  · exact (mapLookup_mapErase_ne sc.message_map (Ne.symm hne)).trans hm
  · exact persistFor_append_markSuccess sc.events _ hne

theorem handleFailure_clean {id : String} {sc : Sched} (now : Int)
    {st : MessageState} (hne : st.message_id ≠ id) (h : CleanFor id sc) :
    CleanFor id (handleFailure now st sc) ∧
    persistFor (handleFailure now st sc).events id = persistFor sc.events id := by
  obtain ⟨hm, hh, hwf⟩ := h
  refine ⟨⟨?_, hh, wfKeys_mapErase hwf⟩, ?_⟩
  · exact (mapLookup_mapErase_ne sc.message_map (Ne.symm hne)).trans hm
  · exact persistFor_append_markFailed sc.events _ hne

theorem scheduleNextRetry_clean {id : String} {sc : Sched}
    {st : MessageState} (hne : st.message_id ≠ id) (h : CleanFor id sc) :
    CleanFor id (scheduleNextRetry st sc) ∧
    persistFor (scheduleNextRetry st sc).events id = persistFor sc.events id := by
  obtain ⟨hm, hh, hwf⟩ := h
  unfold scheduleNextRetry
  split
  · refine ⟨⟨?_, ?_, ?_⟩, ?_⟩
    · exact (mapLookup_mapInsert_ne sc.message_map _ (Ne.symm hne)).trans hm
    · intro e he
      rcases mem_heapPush.mp he with h1 | h1
      · rw [h1]
        exact hne
      · exact hh e h1
    · exact wfKeys_mapInsert hwf rfl
    · exact persistFor_append_saveState sc.events _ hne
  · exact ⟨⟨hm, hh, hwf⟩, rfl⟩

theorem wakeupGo_clean (send : SendFun) (now : Int) (fuel : Nat) (id : String) :
    ∀ sc : Sched, CleanFor id sc →
      CleanFor id (wakeupGo send now fuel sc) ∧
      persistFor (wakeupGo send now fuel sc).events id =
        persistFor sc.events id := by
  induction fuel with
  | zero => exact fun sc h => ⟨h, rfl⟩
  | succ fuel ih =>
    intro sc h
    obtain ⟨hm, hh, hwf⟩ := h
    rw [wakeupGo]
    split
    · exact ⟨⟨hm, hh, hwf⟩, rfl⟩
    · rename_i next_time mid rest hheap
      split
      · exact ⟨⟨hm, hh, hwf⟩, rfl⟩
      · dsimp only
        have hmid : mid ≠ id := hh (next_time, mid) (hheap ▸ List.mem_cons_self _ _)
        have hrest : ∀ e ∈ rest, e.2 ≠ id :=
          fun e he => hh e (hheap ▸ List.mem_cons_of_mem _ he)
        split
        · exact ih _ ⟨hm, hrest, hwf⟩
        · rename_i st hlook
          split
          · exact ih _ ⟨hm, hrest, hwf⟩
          · have hstid0 : st.message_id = mid := wfKeys_lookup hwf hlook
            have hstid : (attemptSend send now st).1.message_id = mid := hstid0
            have hstne : (attemptSend send now st).1.message_id ≠ id :=
              fun hcon => hmid (hstid.symm.trans hcon)
            have hc2 : CleanFor id
                { retry_heap := rest,
                  message_map :=
                    mapInsert sc.message_map mid (attemptSend send now st).1,
                  running := sc.running, total_messages := sc.total_messages,
                  total_success := sc.total_success,
                  total_failed := sc.total_failed,
                  in_progress := sc.in_progress,
                  events := sc.events ++ [Event.sendCall mid now st] } :=
              ⟨(mapLookup_mapInsert_ne sc.message_map _ (Ne.symm hmid)).trans hm,
               hrest, wfKeys_mapInsert hwf hstid⟩
            split
            · have hs := handleSuccess_clean now hstne hc2
              have hw := ih _ hs.1
              exact ⟨hw.1, (hw.2.trans hs.2).trans
                (persistFor_append_sendCall sc.events mid now st id)⟩
            · split
              · have hs := handleFailure_clean now hstne hc2
                have hw := ih _ hs.1
                exact ⟨hw.1, (hw.2.trans hs.2).trans
                  (persistFor_append_sendCall sc.events mid now st id)⟩
              · have hs := scheduleNextRetry_clean hstne hc2
                have hw := ih _ hs.1
                exact ⟨hw.1, (hw.2.trans hs.2).trans
                  (persistFor_append_sendCall sc.events mid now st id)⟩

theorem intakeIds_cons_intake (now : Int) (msg : Message) (ops : List Op) :
    intakeIds (Op.intake now msg :: ops) = msg.message_id :: intakeIds ops :=
  rfl

theorem intakeIds_cons_tick (now : Int) (ops : List Op) :
    intakeIds (Op.tick now :: ops) = intakeIds ops :=
  rfl

theorem run_cons (send : SendFun) (sc : Sched) (op : Op) (ops : List Op) :
    run send sc (op :: ops) = run send (applyOp send sc op) ops :=
  rfl

theorem run_append (send : SendFun) (sc : Sched) (l1 l2 : List Op) :
    run send sc (l1 ++ l2) = run send (run send sc l1) l2 :=
  List.foldl_append _ _ _ _

theorem newMessage_clean_ne (send : SendFun) (now : Int) (msg : Message)
    {id : String} {sc : Sched} (hne : msg.message_id ≠ id)
    (h : CleanFor id sc) :
    CleanFor id (newMessage send now msg sc) ∧
    persistFor (newMessage send now msg sc).events id =
      persistFor sc.events id := by
  obtain ⟨hm, hh, hwf⟩ := h
  simp only [newMessage]
  have hc2 : CleanFor id
      { retry_heap := sc.retry_heap,
        message_map := mapInsert
          (mapInsert sc.message_map msg.message_id
            { message_id := msg.message_id, message := msg, attempt_count := 0,
              next_retry_at := now, status := MessageStatus.PENDING,
              created_at := now, updated_at := now })
          msg.message_id
          (attemptSend send now
            { message_id := msg.message_id, message := msg, attempt_count := 0,
              next_retry_at := now, status := MessageStatus.PENDING,
              created_at := now, updated_at := now }).1,
        running := sc.running, total_messages := sc.total_messages + 1,
        total_success := sc.total_success, total_failed := sc.total_failed,
        in_progress := sc.in_progress + 1,
        events := sc.events ++ [Event.sendCall msg.message_id now
          { message_id := msg.message_id, message := msg, attempt_count := 0,
            next_retry_at := now, status := MessageStatus.PENDING,
            created_at := now, updated_at := now }] } := by
    refine ⟨?_, hh, ?_⟩
    · exact (mapLookup_mapInsert_ne _ _ (Ne.symm hne)).trans
        ((mapLookup_mapInsert_ne _ _ (Ne.symm hne)).trans hm)
    · exact wfKeys_mapInsert (wfKeys_mapInsert hwf rfl) rfl
  have hne2 : (attemptSend send now
      { message_id := msg.message_id, message := msg, attempt_count := 0,
        next_retry_at := now, status := MessageStatus.PENDING,
        created_at := now, updated_at := now }).1.message_id ≠ id := hne
  split
  · have hs := handleSuccess_clean now hne2 hc2
    exact ⟨hs.1, hs.2.trans (persistFor_append_sendCall sc.events _ now _ id)⟩
  · have hs := scheduleNextRetry_clean hne2 hc2
    exact ⟨hs.1, hs.2.trans (persistFor_append_sendCall sc.events _ now _ id)⟩

theorem newMessage_success (send : SendFun) (now : Int) (msg : Message)
    {sc : Sched} (hok : send msg 0 = SendRes.ok true)
    (h : CleanFor msg.message_id sc) :
    CleanFor msg.message_id (newMessage send now msg sc) ∧
    (newMessage send now msg sc).events = sc.events ++
      [Event.sendCall msg.message_id now
        { message_id := msg.message_id, message := msg, attempt_count := 0,
          next_retry_at := now, status := MessageStatus.PENDING,
          created_at := now, updated_at := now },
       Event.markSuccess msg.message_id
        { message_id := msg.message_id, message := msg, attempt_count := 1,
          next_retry_at := now, status := MessageStatus.SUCCESS,
          created_at := now, updated_at := now }] ∧
    (newMessage send now msg sc).retry_heap = sc.retry_heap := by
  obtain ⟨hm, hh, hwf⟩ := h
  simp only [newMessage]
  have hr2 : (attemptSend send now
      { message_id := msg.message_id, message := msg, attempt_count := 0,
        next_retry_at := now, status := MessageStatus.PENDING,
        created_at := now, updated_at := now }).2 = true := by
    simp [attemptSend, hok]
  rw [if_pos hr2]
  refine ⟨⟨?_, hh, ?_⟩, ?_, rfl⟩
  · show mapLookup (mapErase (mapInsert (mapInsert sc.message_map
      msg.message_id _) msg.message_id _) msg.message_id) msg.message_id = none
    rw [mapInsert_mapInsert, mapErase_mapInsert, mapErase_of_lookup_none hm]
    exact hm
  · exact wfKeys_mapErase (wfKeys_mapInsert (wfKeys_mapInsert hwf rfl) rfl)
  · show (sc.events ++ [_]) ++ [_] = _
    rw [List.append_assoc]
    rfl

theorem run_clean (send : SendFun) (ops : List Op) (id : String) :
    ∀ sc : Sched, id ∉ intakeIds ops → CleanFor id sc →
      CleanFor id (run send sc ops) ∧
      persistFor (run send sc ops).events id = persistFor sc.events id := by
  induction ops with
  | nil => exact fun sc _ h => ⟨h, rfl⟩
  | cons op ops ih =>
    intro sc hni h
    cases op with
    | intake now msg =>
      rw [intakeIds_cons_intake] at hni
      have hne : msg.message_id ≠ id :=
        fun hcon => hni (hcon ▸ List.mem_cons_self _ _)
      have hrest : id ∉ intakeIds ops :=
        fun hcon => hni (List.mem_cons_of_mem _ hcon)
      have h1 := newMessage_clean_ne send now msg hne h
      have h2 := ih _ hrest h1.1
      exact ⟨h2.1, h2.2.trans h1.2⟩
    | tick now =>
      rw [intakeIds_cons_tick] at hni
      have h1 : CleanFor id (wakeup send now sc) ∧
          persistFor (wakeup send now sc).events id = persistFor sc.events id := by
        unfold wakeup
        split
        · exact wakeupGo_clean send now _ id sc h
        · exact ⟨h, rfl⟩
      have h2 := ih _ hni h1.1
      exact ⟨h2.1, h2.2.trans h1.2⟩

/-- C10: when a message's first send attempt succeeds during newMessage (it
was not intaken before and is not intaken again), save_message_state is
never invoked for its id across the whole run, and the only persistence
operation performed for it is the single mark_success of the success
transition, which writes the success-log record and issues the idempotent
delete of a pending record that was never created. -/
theorem C10_first_success_no_pending_write (send : SendFun)
    (pre post : List Op) (now : Int) (msg : Message)
    (hpre : msg.message_id ∉ intakeIds pre)
    (hpost : msg.message_id ∉ intakeIds post)
    (hok : send msg 0 = SendRes.ok true) :
    persistFor (run send init₀ (pre ++ Op.intake now msg :: post)).events
        msg.message_id =
      [Event.markSuccess msg.message_id
        { message_id := msg.message_id, message := msg, attempt_count := 1,
          next_retry_at := now, status := MessageStatus.SUCCESS,
          created_at := now, updated_at := now }] ∧
    ∀ st : MessageState, Event.saveState msg.message_id st ∉
      (run send init₀ (pre ++ Op.intake now msg :: post)).events := by
  have h0 : CleanFor msg.message_id init₀ :=
    ⟨rfl, fun e he => absurd he (List.not_mem_nil e), wfKeys_nil⟩
  have hA := run_clean send pre msg.message_id init₀ hpre h0
  have hB := newMessage_success send now msg hok hA.1
  have hC := run_clean send post msg.message_id _ hpost hB.1
  have hfinal : persistFor
      (run send init₀ (pre ++ Op.intake now msg :: post)).events
      msg.message_id =
      [Event.markSuccess msg.message_id
        { message_id := msg.message_id, message := msg, attempt_count := 1,
          next_retry_at := now, status := MessageStatus.SUCCESS,
          created_at := now, updated_at := now }] := by
    rw [run_append, run_cons]
    show persistFor (run send
      (newMessage send now msg (run send init₀ pre)) post).events
      msg.message_id = _
    have hstep : persistFor (run send
        (newMessage send now msg (run send init₀ pre)) post).events
        msg.message_id =
        persistFor (newMessage send now msg (run send init₀ pre)).events
          msg.message_id := hC.2
    rw [hstep, hB.2.1, persistFor_append, hA.2]
    simp [persistFor, Event.isPersist, Event.eventId, init₀, freshSched]
  refine ⟨hfinal, ?_⟩
  intro st hin
  have hmem : Event.saveState msg.message_id st ∈ persistFor
      (run send init₀ (pre ++ Op.intake now msg :: post)).events
      msg.message_id :=
    List.mem_filter.mpr ⟨hin, by simp [Event.isPersist, Event.eventId]⟩
  rw [hfinal] at hmem
  simp at hmem

/-! ## The scheduling invariant for duplicate-free runs -/

theorem mapLookup_eq_none_iff {m : List (String × MessageState)} {id : String} :
    mapLookup m id = none ↔ id ∉ m.map Prod.fst := by
  induction m with
  | nil => simp [mapLookup]
  | cons p rest ih =>
    obtain ⟨k, v⟩ := p
    by_cases hk : k = id
    · subst hk
      simp [mapLookup]
    · simp [mapLookup, hk, ih, Ne.symm hk]

theorem mapLookup_mapErase_self {m : List (String × MessageState)} {id : String}
    (hnd : (m.map Prod.fst).Nodup) : mapLookup (mapErase m id) id = none := by
  induction m with
  | nil => simp [mapErase, mapLookup]
  | cons p rest ih =>
    obtain ⟨k, v⟩ := p
    rw [List.map_cons, List.nodup_cons] at hnd
    by_cases hk : k = id
    · subst hk
      show mapLookup (mapErase ((k, v) :: rest) k) k = none
      simp only [mapErase, if_pos rfl]
      exact mapLookup_eq_none_iff.mpr hnd.1
    · simp only [mapErase, hk, if_false, mapLookup, if_neg hk]
      exact ih hnd.2

/-- Property every recorded send call satisfies in duplicate-free runs: a
retry (pre-call attempt_count at least 1) never fires before created_at
plus the schedule entry for that attempt_count. -/
def SendEvOk : Event → Prop
  | .sendCall _ t st => 1 ≤ st.attempt_count →
      st.attempt_count < 6 ∧
      st.created_at + MessageState.RETRY_SCHEDULE.getD st.attempt_count 0 ≤ t
  | _ => True

/-- Invariant of duplicate-free runs: only seen ids occur, the index is
well-keyed with distinct keys, in_progress counts the index, every live
state is PENDING with 1 ≤ attempt_count ≤ 5, its next_retry_at equals
created_at + RETRY_SCHEDULE[attempt_count], and it owns exactly one heap
entry, carrying that time; every recorded send call was on time. -/
structure RunInv (seen : List String) (sc : Sched) : Prop where
  mapSeen : ∀ p ∈ sc.message_map, p.1 ∈ seen
  heapSeen : ∀ e ∈ sc.retry_heap, e.2 ∈ seen
  keysNodup : (sc.message_map.map Prod.fst).Nodup
  ipLen : sc.in_progress = (sc.message_map.length : Int)
  wf : wfKeys sc.message_map
  live : ∀ id st, mapLookup sc.message_map id = some st →
    st.status = MessageStatus.PENDING ∧ 1 ≤ st.attempt_count ∧
    st.attempt_count < 6 ∧
    st.next_retry_at = st.created_at +
      MessageState.RETRY_SCHEDULE.getD st.attempt_count 0 ∧
    heapFor sc.retry_heap id = [(st.next_retry_at, id)]
  evOk : ∀ e ∈ sc.events, SendEvOk e

theorem RunInv_mono {seen seen' : List String} {sc : Sched}
    (hsub : ∀ x ∈ seen, x ∈ seen') (h : RunInv seen sc) : RunInv seen' sc :=
  ⟨fun p hp => hsub _ (h.mapSeen p hp), fun e he => hsub _ (h.heapSeen e he),
   h.keysNodup, h.ipLen, h.wf, h.live, h.evOk⟩

theorem RunInv_congr {seen : List String} {sc1 sc2 : Sched} (h : RunInv seen sc1)
    (hmap : sc2.message_map = sc1.message_map)
    (hheap : sc2.retry_heap = sc1.retry_heap)
    (hip : sc2.in_progress = sc1.in_progress)
    (hev : ∀ e ∈ sc2.events, SendEvOk e) : RunInv seen sc2 := by
  refine ⟨?_, ?_, ?_, ?_, ?_, ?_, hev⟩
  · rw [hmap]
    exact h.mapSeen
  · rw [hheap]
    exact h.heapSeen
  · rw [hmap]
    exact h.keysNodup
  · rw [hip, hmap]
    exact h.ipLen
  · rw [hmap]
    exact h.wf
  · rw [hmap, hheap]
    exact h.live

/-- The state intake constructs before the immediate first attempt. -/
def initState (msg : Message) (now : Int) : MessageState :=
  { message_id := msg.message_id, message := msg, attempt_count := 0,
    next_retry_at := now, status := MessageStatus.PENDING,
    created_at := now, updated_at := now }

/-- The state left behind by an intake whose first attempt failed: one
attempt performed, first retry scheduled at created_at + RETRY_SCHEDULE[1]. -/
def firstRetryState (msg : Message) (now : Int) : MessageState :=
  { message_id := msg.message_id, message := msg, attempt_count := 1,
    next_retry_at := now + MessageState.RETRY_SCHEDULE.getD 1 0,
    status := MessageStatus.PENDING, created_at := now, updated_at := now }

theorem RunInv_newMessage (send : SendFun) (now : Int) (msg : Message)
    {seen : List String} {sc : Sched} (hInv : RunInv seen sc)
    (hfresh : msg.message_id ∉ seen) :
    RunInv (seen ++ [msg.message_id]) (newMessage send now msg sc) := by
  have hlook0 : mapLookup sc.message_map msg.message_id = none := by
    rw [mapLookup_eq_none_iff]
    intro hmem
    rw [List.mem_map] at hmem
    obtain ⟨p, hp, hpe⟩ := hmem
    exact hfresh (hpe ▸ hInv.mapSeen p hp)
  have hni : msg.message_id ∉ sc.message_map.map Prod.fst :=
    mapLookup_eq_none_iff.mp hlook0
  have hhf0 : heapFor sc.retry_heap msg.message_id = [] :=
    heapFor_nil_of fun e he hcon => hfresh (hcon ▸ hInv.heapSeen e he)
  have hInv' : RunInv (seen ++ [msg.message_id]) sc :=
    RunInv_mono (fun x hx => List.mem_append_left _ hx) hInv
  simp only [newMessage]
  split
  · refine RunInv_congr hInv' ?_ rfl ?_ ?_
    · show mapErase (mapInsert (mapInsert sc.message_map msg.message_id _)
        msg.message_id _) msg.message_id = sc.message_map
      rw [mapInsert_mapInsert, mapErase_mapInsert,
        mapErase_of_lookup_none hlook0]
    · show sc.in_progress + 1 - 1 = sc.in_progress
      omega
    · intro e he
      rcases List.mem_append.mp he with h1 | h1
      · rcases List.mem_append.mp h1 with h2 | h2
        · exact hInv'.evOk e h2
        · rw [List.mem_singleton] at h2
          subst h2
          exact fun hc => absurd hc (Nat.not_succ_le_zero 0)
      · rw [List.mem_singleton] at h1
        subst h1
        exact trivial
  · have hevBoth : ∀ e ∈ (sc.events ++
        [Event.sendCall msg.message_id now (initState msg now)]) ++
        [Event.saveState msg.message_id (firstRetryState msg now)],
        SendEvOk e := by
      intro e he
      rcases List.mem_append.mp he with h1 | h1
      · rcases List.mem_append.mp h1 with h2 | h2
        · exact hInv.evOk e h2
        · rw [List.mem_singleton] at h2
          subst h2
          exact fun hc => absurd hc (Nat.not_succ_le_zero 0)
      · rw [List.mem_singleton] at h1
        subst h1
        exact trivial
    have hgoal : RunInv (seen ++ [msg.message_id])
        { retry_heap := heapPush sc.retry_heap
            ((firstRetryState msg now).next_retry_at, msg.message_id),
          message_map := mapInsert sc.message_map msg.message_id
            (firstRetryState msg now),
          running := sc.running, total_messages := sc.total_messages + 1,
          total_success := sc.total_success, total_failed := sc.total_failed,
          in_progress := sc.in_progress + 1,
          events := (sc.events ++
            [Event.sendCall msg.message_id now (initState msg now)]) ++
            [Event.saveState msg.message_id (firstRetryState msg now)] } := by
      refine ⟨?_, ?_, ?_, ?_, ?_, ?_, hevBoth⟩
      · intro p hp
        rcases mem_mapInsert hp with h1 | h1
        · rw [h1]
          exact List.mem_append_right _ (List.mem_singleton.mpr rfl)
        · exact List.mem_append_left _ (hInv.mapSeen p h1)
      · intro e he
        rcases mem_heapPush.mp he with h1 | h1
        · rw [h1]
          exact List.mem_append_right _ (List.mem_singleton.mpr rfl)
        · exact List.mem_append_left _ (hInv.heapSeen e h1)
      · show ((mapInsert sc.message_map msg.message_id
          (firstRetryState msg now)).map Prod.fst).Nodup
        rw [keys_mapInsert_none _ hlook0]
        exact hInv.keysNodup.append (List.nodup_singleton _)
          fun a ha hb => hni ((List.mem_singleton.mp hb) ▸ ha)
      · show sc.in_progress + 1 = _
        rw [length_mapInsert_none _ hlook0, hInv.ipLen]
        push_cast
        ring
      · exact wfKeys_mapInsert hInv.wf rfl
      · intro id st hlk
        by_cases hid : id = msg.message_id
        · subst hid
          rw [mapLookup_mapInsert_self] at hlk
          obtain rfl : firstRetryState msg now = st := Option.some.inj hlk
          refine ⟨rfl, Nat.le_refl 1, (by decide : (1 : Nat) < 6), rfl, ?_⟩
          exact heapFor_heapPush_eq rfl hhf0
        · rw [mapLookup_mapInsert_ne _ _ hid] at hlk
          have old := hInv.live id st hlk
          refine ⟨old.1, old.2.1, old.2.2.1, old.2.2.2.1, ?_⟩
          exact (heapFor_heapPush_ne
            (show ((firstRetryState msg now).next_retry_at,
              msg.message_id).2 ≠ id from Ne.symm hid)).trans old.2.2.2.2
    refine RunInv_congr hgoal ?_ ?_ rfl ?_
    · show mapInsert (mapInsert (mapInsert sc.message_map msg.message_id _)
        msg.message_id _) msg.message_id _ = _
      rw [mapInsert_mapInsert, mapInsert_mapInsert]
      rfl
    · rfl
    · exact hevBoth

theorem scheduleNextRetry_eq (st : MessageState) (sc : Sched)
    (h : st.attempt_count < 6) :
    scheduleNextRetry st sc =
    { sc with
      retry_heap := heapPush sc.retry_heap
        (st.created_at + MessageState.RETRY_SCHEDULE.getD st.attempt_count 0,
          st.message_id),
      message_map := mapInsert sc.message_map st.message_id
        { st with next_retry_at := st.created_at +
            MessageState.RETRY_SCHEDULE.getD st.attempt_count 0 },
      events := sc.events ++ [Event.saveState st.message_id
        { st with next_retry_at := st.created_at +
            MessageState.RETRY_SCHEDULE.getD st.attempt_count 0 }] } := by
  have hlen : st.attempt_count < MessageState.RETRY_SCHEDULE.length := by
    simpa [MessageState.RETRY_SCHEDULE] using h
  have hD : MessageState.RETRY_SCHEDULE.getD st.attempt_count 0 =
      MessageState.RETRY_SCHEDULE.get ⟨st.attempt_count, hlen⟩ :=
    List.getD_eq_get _ _ hlen
  unfold scheduleNextRetry
  rw [dif_pos hlen, hD]

theorem RunInv_wakeupGo (send : SendFun) (now : Int) (fuel : Nat)
    {seen : List String} :
    ∀ sc : Sched, RunInv seen sc → RunInv seen (wakeupGo send now fuel sc) := by
  induction fuel with
  | zero => exact fun sc h => h
  | succ fuel ih =>
    intro sc hInv
    rw [wakeupGo]
    split
    · exact hInv
    · rename_i next_time mid rest hheap
      split
      · exact hInv
      · rename_i ht
        dsimp only
        split
        · rename_i hlook
          apply ih
          refine ⟨hInv.mapSeen, ?_, hInv.keysNodup, hInv.ipLen, hInv.wf, ?_,
            hInv.evOk⟩
          · intro e he
            exact hInv.heapSeen e (by rw [hheap]; exact List.mem_cons_of_mem _ he)
          · intro id st hlk
            have hmid : mid ≠ id := by
              intro hc
              subst hc
              rw [hlook] at hlk
              cases hlk
            have old := hInv.live id st hlk
            refine ⟨old.1, old.2.1, old.2.2.1, old.2.2.2.1, ?_⟩
            have h5 := old.2.2.2.2
            rw [hheap, heapFor_cons_ne hmid] at h5
            exact h5
        · rename_i st hlook
          split
          · rename_i hnp
            exact absurd (hInv.live mid st hlook).1 hnp
          · obtain ⟨hPend, h1c, hc6, hnra, hhf⟩ := hInv.live mid st hlook
            have hmid_seen : mid ∈ seen := hInv.heapSeen (next_time, mid)
              (by rw [hheap]; exact List.mem_cons_self _ _)
            have e1 : (next_time, mid) :: heapFor rest mid =
                [(st.next_retry_at, mid)] := by
              rw [← heapFor_cons_eq rfl, ← hheap]
              exact hhf
            injection e1 with e1h e1t
            have ht_eq : next_time = st.next_retry_at := congrArg Prod.fst e1h
            have hle : st.next_retry_at ≤ now := ht_eq ▸ not_lt.mp ht
            have hstmid : st.message_id = mid := wfKeys_lookup hInv.wf hlook
            have hlkSome : (mapLookup sc.message_map mid).isSome := by
              rw [hlook]
              rfl
            have hsend_ok : SendEvOk (Event.sendCall mid now st) := by
              intro hc1
              refine ⟨hc6, ?_⟩
              rw [← hnra]
              exact hle
            have hevs2 : ∀ e ∈ sc.events ++ [Event.sendCall mid now st],
                SendEvOk e := by
              intro e he
              rcases List.mem_append.mp he with h1 | h1
              · exact hInv.evOk e h1
              · rw [List.mem_singleton] at h1
                subst h1
                exact hsend_ok
            have hrestSeen : ∀ e ∈ rest, e.2 ∈ seen :=
              fun e he => hInv.heapSeen e
                (by rw [hheap]; exact List.mem_cons_of_mem _ he)
            have hnd2 : ((mapInsert sc.message_map mid
                (attemptSend send now st).1).map Prod.fst).Nodup := by
              rw [keys_mapInsert_some _ hlkSome]
              exact hInv.keysNodup
            have hliveNe : ∀ id st2, id ≠ mid →
                mapLookup sc.message_map id = some st2 →
                st2.status = MessageStatus.PENDING ∧ 1 ≤ st2.attempt_count ∧
                st2.attempt_count < 6 ∧
                st2.next_retry_at = st2.created_at +
                  MessageState.RETRY_SCHEDULE.getD st2.attempt_count 0 ∧
                heapFor rest id = [(st2.next_retry_at, id)] := by
              intro id st2 hid hlk2
              have old2 := hInv.live id st2 hlk2
              refine ⟨old2.1, old2.2.1, old2.2.2.1, old2.2.2.2.1, ?_⟩
              have h5 := old2.2.2.2.2
              rw [hheap, heapFor_cons_ne (Ne.symm hid)] at h5
              exact h5
            split
            · -- success transition
              apply ih
              refine ⟨?_, ?_, ?_, ?_, ?_, ?_, ?_⟩
              · intro p hp
                rcases mem_mapInsert (mem_mapErase hp) with h1 | h1
                · rw [h1]
                  exact hmid_seen
                · exact hInv.mapSeen p h1
              · exact hrestSeen
              · exact List.Nodup.sublist (keys_mapErase_sublist _ _) hnd2
              · have hsome2 : (mapLookup (mapInsert sc.message_map mid
                    (attemptSend send now st).1) st.message_id).isSome := by
                  rw [hstmid, mapLookup_mapInsert_self]
                  rfl
                have hle2 := length_mapErase_some hsome2
                have hli := length_mapInsert_some
                  ((attemptSend send now st).1) hlkSome
                show sc.in_progress - 1 =
                  ((mapErase (mapInsert sc.message_map mid
                    (attemptSend send now st).1) st.message_id).length : Int)
                rw [hInv.ipLen]
                omega
              · exact wfKeys_mapErase (wfKeys_mapInsert hInv.wf hstmid)
              · intro id st2 hlk2
                by_cases hid : id = mid
                · subst hid
                  replace hlk2 : mapLookup (mapErase (mapInsert sc.message_map
                      id (attemptSend send now st).1) st.message_id) id =
                      some st2 := hlk2
                  rw [hstmid, mapLookup_mapErase_self hnd2] at hlk2
                  cases hlk2
                · replace hlk2 : mapLookup (mapErase (mapInsert sc.message_map
                      mid (attemptSend send now st).1) st.message_id) id =
                      some st2 := hlk2
                  rw [hstmid, mapLookup_mapErase_ne _ hid,
                    mapLookup_mapInsert_ne _ _ hid] at hlk2
                  exact hliveNe id st2 hid hlk2
              · intro e he
                rcases List.mem_append.mp he with h1 | h1
                · exact hevs2 e h1
                · rw [List.mem_singleton] at h1
                  subst h1
                  exact trivial
            · split
              · -- failure transition
                apply ih
                refine ⟨?_, ?_, ?_, ?_, ?_, ?_, ?_⟩
                · intro p hp
                  rcases mem_mapInsert (mem_mapErase hp) with h1 | h1
                  · rw [h1]
                    exact hmid_seen
                  · exact hInv.mapSeen p h1
                · exact hrestSeen
                · exact List.Nodup.sublist (keys_mapErase_sublist _ _) hnd2
                · have hsome2 : (mapLookup (mapInsert sc.message_map mid
                      (attemptSend send now st).1) st.message_id).isSome := by
                    rw [hstmid, mapLookup_mapInsert_self]
                    rfl
                  have hle2 := length_mapErase_some hsome2
                  have hli := length_mapInsert_some
                    ((attemptSend send now st).1) hlkSome
                  show sc.in_progress - 1 =
                    ((mapErase (mapInsert sc.message_map mid
                      (attemptSend send now st).1) st.message_id).length : Int)
                  rw [hInv.ipLen]
                  omega
                · exact wfKeys_mapErase (wfKeys_mapInsert hInv.wf hstmid)
                · intro id st2 hlk2
                  by_cases hid : id = mid
                  · subst hid
                    replace hlk2 : mapLookup (mapErase (mapInsert sc.message_map
                        id (attemptSend send now st).1) st.message_id) id =
                        some st2 := hlk2
                    rw [hstmid, mapLookup_mapErase_self hnd2] at hlk2
                    cases hlk2
                  · replace hlk2 : mapLookup (mapErase (mapInsert sc.message_map
                        mid (attemptSend send now st).1) st.message_id) id =
                        some st2 := hlk2
                    rw [hstmid, mapLookup_mapErase_ne _ hid,
                      mapLookup_mapInsert_ne _ _ hid] at hlk2
                    exact hliveNe id st2 hid hlk2
                · intro e he
                  rcases List.mem_append.mp he with h1 | h1
                  · exact hevs2 e h1
                  · rw [List.mem_singleton] at h1
                    subst h1
                    exact trivial
              · -- schedule next retry
                rename_i hltMax
                have hc1 : (attemptSend send now st).1.attempt_count < 6 :=
                  Nat.lt_of_not_le hltMax
                apply ih
                rw [scheduleNextRetry_eq _ _ hc1]
                refine ⟨?_, ?_, ?_, ?_, ?_, ?_, ?_⟩
                · intro p hp
                  rcases mem_mapInsert hp with h1 | h1
                  · rw [h1]
                    show st.message_id ∈ seen
                    rw [hstmid]
                    exact hmid_seen
                  · rcases mem_mapInsert h1 with h2 | h2
                    · rw [h2]
                      exact hmid_seen
                    · exact hInv.mapSeen p h2
                · intro e he
                  rcases mem_heapPush.mp he with h1 | h1
                  · rw [h1]
                    show st.message_id ∈ seen
                    rw [hstmid]
                    exact hmid_seen
                  · exact hrestSeen e h1
                · have hsome2 : (mapLookup (mapInsert sc.message_map mid
                      (attemptSend send now st).1) st.message_id).isSome := by
                    rw [hstmid, mapLookup_mapInsert_self]
                    rfl
                  show ((mapInsert (mapInsert sc.message_map mid
                    (attemptSend send now st).1) st.message_id _).map
                      Prod.fst).Nodup
                  rw [keys_mapInsert_some _ hsome2]
                  exact hnd2
                · have hsome2 : (mapLookup (mapInsert sc.message_map mid
                      (attemptSend send now st).1) st.message_id).isSome := by
                    rw [hstmid, mapLookup_mapInsert_self]
                    rfl
                  have hli2 := length_mapInsert_some
                    ({ (attemptSend send now st).1 with
                        next_retry_at := (attemptSend send now st).1.created_at +
                          MessageState.RETRY_SCHEDULE.getD
                            (attemptSend send now st).1.attempt_count 0 }) hsome2
                  have hli := length_mapInsert_some
                    ((attemptSend send now st).1) hlkSome
                  show sc.in_progress =
                    ((mapInsert (mapInsert sc.message_map mid
                      (attemptSend send now st).1) st.message_id
                      { (attemptSend send now st).1 with
                        next_retry_at := (attemptSend send now st).1.created_at +
                          MessageState.RETRY_SCHEDULE.getD
                            (attemptSend send now st).1.attempt_count 0 }).length
                      : Int)
                  rw [hInv.ipLen]
                  omega
                · exact wfKeys_mapInsert (wfKeys_mapInsert hInv.wf hstmid) rfl
                · intro id st2 hlk2
                  by_cases hid : id = mid
                  · subst hid
                    replace hlk2 : mapLookup (mapInsert (mapInsert
                        sc.message_map id (attemptSend send now st).1)
                        st.message_id
                        { (attemptSend send now st).1 with
                          next_retry_at := (attemptSend send now st).1.created_at
                            + MessageState.RETRY_SCHEDULE.getD
                              (attemptSend send now st).1.attempt_count 0 }) id =
                        some st2 := hlk2
                    rw [hstmid, mapInsert_mapInsert,
                      mapLookup_mapInsert_self] at hlk2
                    obtain rfl := Option.some.inj hlk2
                    refine ⟨hPend, Nat.succ_le_succ (Nat.zero_le _), hc1, rfl, ?_⟩
                    have hres := heapFor_heapPush_eq
                      (show ((attemptSend send now st).1.created_at +
                        MessageState.RETRY_SCHEDULE.getD
                          (attemptSend send now st).1.attempt_count 0,
                        st.message_id).2 = id from hstmid) e1t
                    exact hres.trans (by rw [hstmid])
                  · replace hlk2 : mapLookup (mapInsert (mapInsert
                        sc.message_map mid (attemptSend send now st).1)
                        st.message_id
                        { (attemptSend send now st).1 with
                          next_retry_at := (attemptSend send now st).1.created_at
                            + MessageState.RETRY_SCHEDULE.getD
                              (attemptSend send now st).1.attempt_count 0 }) id =
                        some st2 := hlk2
                    rw [hstmid, mapInsert_mapInsert,
                      mapLookup_mapInsert_ne _ _ hid] at hlk2
                    have old2 := hliveNe id st2 hid hlk2
                    refine ⟨old2.1, old2.2.1, old2.2.2.1, old2.2.2.2.1, ?_⟩
                    have hne2 : ((attemptSend send now st).1.created_at +
                        MessageState.RETRY_SCHEDULE.getD
                          (attemptSend send now st).1.attempt_count 0,
                        st.message_id).2 ≠ id := by
                      show st.message_id ≠ id
                      rw [hstmid]
                      exact Ne.symm hid
                    exact (heapFor_heapPush_ne hne2).trans old2.2.2.2.2
                · intro e he
                  rcases List.mem_append.mp he with h1 | h1
                  · exact hevs2 e h1
                  · rw [List.mem_singleton] at h1
                    subst h1
                    exact trivial

theorem RunInv_run (send : SendFun) (ops : List Op) :
    ∀ (seen : List String) (sc : Sched), RunInv seen sc →
      (∀ x ∈ intakeIds ops, x ∉ seen) → (intakeIds ops).Nodup →
      RunInv (seen ++ intakeIds ops) (run send sc ops) := by
  induction ops with
  | nil =>
    intro seen sc h _ _
    have he : seen ++ intakeIds [] = seen := by simp [intakeIds]
    rw [he]
    exact h
  | cons op ops ih =>
    intro seen sc hInv hdisj hnd
    cases op with
    | intake now msg =>
      have hfresh : msg.message_id ∉ seen :=
        hdisj _ (by rw [intakeIds_cons_intake]; exact List.mem_cons_self _ _)
      have h1 := RunInv_newMessage send now msg hInv hfresh
      rw [intakeIds_cons_intake] at hnd
      have hdisj' : ∀ x ∈ intakeIds ops, x ∉ seen ++ [msg.message_id] := by
        intro x hx
        rw [List.mem_append, List.mem_singleton]
        rintro (hc | hc)
        · exact hdisj x
            (by rw [intakeIds_cons_intake]; exact List.mem_cons_of_mem _ hx) hc
        · subst hc
          exact (List.nodup_cons.mp hnd).1 hx
      have h2 := ih (seen ++ [msg.message_id]) _ h1 hdisj'
        (List.nodup_cons.mp hnd).2
      rw [intakeIds_cons_intake, run_cons]
      rw [List.append_assoc] at h2
      exact h2
    | tick now =>
      rw [intakeIds_cons_tick] at hdisj hnd
      have h1 : RunInv seen (wakeup send now sc) := by
        unfold wakeup
        split
        · exact RunInv_wakeupGo send now _ sc hInv
        · exact hInv
      have h2 := ih seen _ h1 hdisj hnd
      rw [intakeIds_cons_tick, run_cons]
      exact h2

theorem RunInv_init : RunInv [] init₀ := by
  refine ⟨?_, ?_, ?_, rfl, ?_, ?_, ?_⟩
  · intro p hp
    exact absurd hp (List.not_mem_nil p)
  · intro e he
    exact absurd he (List.not_mem_nil e)
  · exact List.nodup_nil
  · exact wfKeys_nil
  · intro id st h
    simp [init₀, freshSched, mapLookup] at h
  · intro e he
    exact absurd he (List.not_mem_nil e)

/-- C4 amended: after any sequence of intake and tick events in which no
message_id is intaken more than once, in_progress equals the number of
entries in the in-memory index. -/
theorem C4_in_progress_counts_index (send : SendFun) (ops : List Op)
    (hnd : (intakeIds ops).Nodup) :
    (run send init₀ ops).in_progress =
      ((run send init₀ ops).message_map.length : Int) := by
  have h := RunInv_run send ops [] init₀ RunInv_init
    (fun x _ hc => absurd hc (List.not_mem_nil x)) hnd
  exact h.ipLen

/-- Message of the C4 witness. -/
def w4msg : Message := { message_id := "w4", content := "a", metadata := none }

/-- Witness for the amended C4 at a concrete duplicate-free run. -/
theorem C4_in_progress_counts_index_witness :
    (intakeIds [Op.intake 0 w4msg, Op.tick 500]).Nodup ∧
    (run sendAlwaysFalse init₀ [Op.intake 0 w4msg, Op.tick 500]).in_progress =
      ((run sendAlwaysFalse init₀
        [Op.intake 0 w4msg, Op.tick 500]).message_map.length : Int) :=
  ⟨by decide, C4_in_progress_counts_index sendAlwaysFalse _ (by decide)⟩

/-- C5 amended: in any duplicate-free sequence of intake and tick events,
every recorded retry send call (pre-call attempt_count k at least 1) has
k < 6 and happens no earlier than created_at + RETRY_SCHEDULE[k]; since
attempt_count increments by one per send invocation of an id, the call with
pre-call count k is the (k+1)-th send invocation for the message. -/
theorem C5_no_early_retry (send : SendFun) (ops : List Op)
    (hnd : (intakeIds ops).Nodup) :
    ∀ e ∈ (run send init₀ ops).events,
      ∀ (i : String) (t : Int) (st : MessageState),
      e = Event.sendCall i t st → 1 ≤ st.attempt_count →
      st.attempt_count < 6 ∧
      st.created_at + MessageState.RETRY_SCHEDULE.getD st.attempt_count 0 ≤ t := by
  intro e he i t st heq h1
  have h := RunInv_run send ops [] init₀ RunInv_init
    (fun x _ hc => absurd hc (List.not_mem_nil x)) hnd
  have h2 := h.evOk e he
  rw [heq] at h2
  exact h2 h1

theorem mem_of_get?_eq {α : Type} {l : List α} {n : Nat} {a : α}
    (h : l.get? n = some a) : a ∈ l := by
  induction l generalizing n with
  | nil => simp [List.get?] at h
  | cons x xs ih =>
    cases n with
    | zero =>
      simp [List.get?] at h
      simp [h]
    | succ n =>
      simp only [List.get?] at h
      exact List.mem_cons_of_mem _ (ih h)

/-- Message of the C5 witness. -/
def w5msg : Message := { message_id := "w5", content := "b", metadata := none }

/-- State of "w5" just before the send call of the tick at 0.5 s in the C5
witness run. -/
def w5pre : MessageState :=
  { message_id := "w5", message := w5msg, attempt_count := 1,
    next_retry_at := 500, status := MessageStatus.PENDING,
    created_at := 0, updated_at := 0 }

/-- Witness for the amended C5 at a concrete duplicate-free run and a
concrete recorded retry. -/
theorem C5_no_early_retry_witness :
    (intakeIds [Op.intake 0 w5msg, Op.tick 500]).Nodup ∧
    (run sendAlwaysFalse init₀ [Op.intake 0 w5msg, Op.tick 500]).events.get? 2 =
      some (Event.sendCall "w5" 500 w5pre) ∧
    1 ≤ w5pre.attempt_count ∧
    (w5pre.attempt_count < 6 ∧
      w5pre.created_at +
        MessageState.RETRY_SCHEDULE.getD w5pre.attempt_count 0 ≤ 500) := by
  refine ⟨by decide, rfl, by decide, ?_⟩
  have hm : (run sendAlwaysFalse init₀
      [Op.intake 0 w5msg, Op.tick 500]).events.get? 2 =
      some (Event.sendCall "w5" 500 w5pre) := rfl
  exact C5_no_early_retry sendAlwaysFalse [Op.intake 0 w5msg, Op.tick 500]
    (by decide) (Event.sendCall "w5" 500 w5pre) (mem_of_get?_eq hm)
    "w5" 500 w5pre rfl (by decide)

/-! ## The fuelled drain loop computes the while loop of wakeup -/

theorem mapWeight_mapInsert_some {m : List (String × MessageState)}
    {k : String} {w : MessageState} (v : MessageState)
    (h : mapLookup m k = some w) :
    mapWeight (mapInsert m k v) + entryWeight w =
      mapWeight m + entryWeight v := by
  induction m with
  | nil => simp [mapLookup] at h
  | cons p rest ih =>
    obtain ⟨k2, u⟩ := p
    by_cases hk : k2 = k
    · subst hk
      simp only [mapLookup, if_true, eq_self_iff_true, Option.some.injEq] at h
      subst h
      simp only [mapInsert, if_true, eq_self_iff_true, mapWeight,
        List.map_cons, List.sum_cons]
      omega
    · simp only [mapLookup, hk, if_false] at h
      simp only [mapInsert, hk, if_false, mapWeight, List.map_cons,
        List.sum_cons]
      have := ih h
      simp only [mapWeight] at this
      omega

theorem mapWeight_mapErase_le (m : List (String × MessageState)) (k : String) :
    mapWeight (mapErase m k) ≤ mapWeight m := by
  induction m with
  | nil => exact Nat.le_refl _
  | cons p rest ih =>
    obtain ⟨k2, u⟩ := p
    by_cases hk : k2 = k
    · subst hk
      simp only [mapErase, if_true, eq_self_iff_true, mapWeight,
        List.map_cons, List.sum_cons]
      omega
    · simp only [mapErase, hk, if_false, mapWeight, List.map_cons,
        List.sum_cons]
      have := ih
      simp only [mapWeight] at this
      omega

theorem weight_after_terminal (send : SendFun) (now : Int)
    {m : List (String × MessageState)} {mid : String} {st : MessageState}
    (hlook : mapLookup m mid = some st) (k : String) :
    mapWeight (mapErase (mapInsert m mid (attemptSend send now st).1) k) ≤
      mapWeight m := by
  have h1 := mapWeight_mapInsert_some ((attemptSend send now st).1) hlook
  have h2 := mapWeight_mapErase_le (mapInsert m mid (attemptSend send now st).1) k
  have h3 : entryWeight ((attemptSend send now st).1) ≤ entryWeight st := by
    show MessageState.MAX_ATTEMPTS + 1 - (st.attempt_count + 1) ≤
      MessageState.MAX_ATTEMPTS + 1 - st.attempt_count
    omega
  omega

theorem weight_after_schedule (send : SendFun) (now : Int)
    {m : List (String × MessageState)} {mid : String} {st : MessageState}
    (hlook : mapLookup m mid = some st) (hwf : wfKeys m)
    (hc : st.attempt_count + 1 < 6) (v : MessageState)
    (hv : entryWeight v = entryWeight ((attemptSend send now st).1)) :
    mapWeight (mapInsert (mapInsert m mid (attemptSend send now st).1)
      st.message_id v) < mapWeight m := by
  have hstmid : st.message_id = mid := wfKeys_lookup hwf hlook
  have hlg2 : mapLookup (mapInsert m mid (attemptSend send now st).1)
      st.message_id = some ((attemptSend send now st).1) := by
    rw [hstmid]
    exact mapLookup_mapInsert_self _ _ _
  have h1 := mapWeight_mapInsert_some v hlg2
  have h0 := mapWeight_mapInsert_some ((attemptSend send now st).1) hlook
  have hMA : MessageState.MAX_ATTEMPTS = 6 := rfl
  have h3 : entryWeight ((attemptSend send now st).1) < entryWeight st := by
    show MessageState.MAX_ATTEMPTS + 1 - (st.attempt_count + 1) <
      MessageState.MAX_ATTEMPTS + 1 - st.attempt_count
    omega
  omega

theorem wakeupGo_nil_heap (send : SendFun) (now : Int) (f : Nat) (sc : Sched)
    (h : sc.retry_heap = []) : wakeupGo send now f sc = sc := by
  cases f with
  | zero => rfl
  | succ f =>
    rw [wakeupGo, h]

theorem wakeupGo_eq_any (send : SendFun) (now : Int) :
    ∀ (n : Nat) (sc : Sched) (f g : Nat), msize sc = n →
      wfKeys sc.message_map → msize sc ≤ f → msize sc ≤ g →
      wakeupGo send now f sc = wakeupGo send now g sc := by
  intro n
  induction n using Nat.strong_induction_on with
  | _ n ihn =>
    intro sc f g hn hwf hf hg
    cases hheap : sc.retry_heap with
    | nil =>
      rw [wakeupGo_nil_heap send now f sc hheap,
        wakeupGo_nil_heap send now g sc hheap]
    | cons e rest =>
      obtain ⟨t, mid⟩ := e
      have hpos : rest.length + 1 + mapWeight sc.message_map = msize sc := by
        show _ = sc.retry_heap.length + _
        rw [hheap]
        simp
      cases f with
      | zero => omega
      | succ f' =>
        cases g with
        | zero => omega
        | succ g' =>
          rw [wakeupGo, wakeupGo, hheap]
          dsimp only
          by_cases htg : t > now
          · rw [if_pos htg, if_pos htg]
          · rw [if_neg htg, if_neg htg]
            cases hlook : mapLookup sc.message_map mid with
            | none =>
              dsimp only
              refine ihn _ ?_ _ f' g' rfl hwf ?_ ?_
              · show rest.length + mapWeight sc.message_map < n
                omega
              · show rest.length + mapWeight sc.message_map ≤ f'
                omega
              · show rest.length + mapWeight sc.message_map ≤ g'
                omega
            | some st =>
              dsimp only
              by_cases hst : st.status ≠ MessageStatus.PENDING
              · rw [if_pos hst, if_pos hst]
                refine ihn _ ?_ _ f' g' rfl hwf ?_ ?_
                · show rest.length + mapWeight sc.message_map < n
                  omega
                · show rest.length + mapWeight sc.message_map ≤ f'
                  omega
                · show rest.length + mapWeight sc.message_map ≤ g'
                  omega
              · rw [if_neg hst, if_neg hst]
                have hstmid : st.message_id = mid := wfKeys_lookup hwf hlook
                by_cases hr2 : (attemptSend send now st).2 = true
                · rw [if_pos hr2, if_pos hr2]
                  have hwle := weight_after_terminal send now hlook
                    (st.message_id)
                  refine ihn _ ?_ _ f' g' rfl ?_ ?_ ?_
                  · show rest.length + mapWeight (mapErase (mapInsert
                      sc.message_map mid (attemptSend send now st).1)
                      st.message_id) < n
                    omega
                  · exact wfKeys_mapErase (wfKeys_mapInsert hwf hstmid)
                  · show rest.length + mapWeight (mapErase (mapInsert
                      sc.message_map mid (attemptSend send now st).1)
                      st.message_id) ≤ f'
                    omega
                  · show rest.length + mapWeight (mapErase (mapInsert
                      sc.message_map mid (attemptSend send now st).1)
                      st.message_id) ≤ g'
                    omega
                · rw [if_neg hr2, if_neg hr2]
                  by_cases hmax : MessageState.MAX_ATTEMPTS ≤
                      (attemptSend send now st).1.attempt_count
                  · rw [if_pos hmax, if_pos hmax]
                    have hwle := weight_after_terminal send now hlook
                      (st.message_id)
                    refine ihn _ ?_ _ f' g' rfl ?_ ?_ ?_
                    · show rest.length + mapWeight (mapErase (mapInsert
                        sc.message_map mid (attemptSend send now st).1)
                        st.message_id) < n
                      omega
                    · exact wfKeys_mapErase (wfKeys_mapInsert hwf hstmid)
                    · show rest.length + mapWeight (mapErase (mapInsert
                        sc.message_map mid (attemptSend send now st).1)
                        st.message_id) ≤ f'
                      omega
                    · show rest.length + mapWeight (mapErase (mapInsert
                        sc.message_map mid (attemptSend send now st).1)
                        st.message_id) ≤ g'
                      omega
                  · rw [if_neg hmax, if_neg hmax]
                    have hc1 : st.attempt_count + 1 < 6 :=
                      Nat.lt_of_not_le hmax
                    have hc1' : (attemptSend send now st).1.attempt_count < 6 :=
                      hc1
                    rw [scheduleNextRetry_eq _ _ hc1']
                    have hwlt := weight_after_schedule send now hlook hwf hc1
                      { (attemptSend send now st).1 with
                        next_retry_at := (attemptSend send now st).1.created_at +
                          MessageState.RETRY_SCHEDULE.getD
                            (attemptSend send now st).1.attempt_count 0 } rfl
                    refine ihn _ ?_ _ f' g' rfl ?_ ?_ ?_
                    · show (heapPush rest ((attemptSend send now st).1.created_at
                        + MessageState.RETRY_SCHEDULE.getD
                          (attemptSend send now st).1.attempt_count 0,
                        st.message_id)).length +
                        mapWeight (mapInsert (mapInsert sc.message_map mid
                          (attemptSend send now st).1)
                          st.message_id
                          { (attemptSend send now st).1 with
                            next_retry_at :=
                              (attemptSend send now st).1.created_at +
                              MessageState.RETRY_SCHEDULE.getD
                                (attemptSend send now st).1.attempt_count 0 }) < n
                      rw [heapPush_length]
                      omega
                    · exact wfKeys_mapInsert (wfKeys_mapInsert hwf hstmid) rfl
                    · show (heapPush rest ((attemptSend send now st).1.created_at
                        + MessageState.RETRY_SCHEDULE.getD
                          (attemptSend send now st).1.attempt_count 0,
                        st.message_id)).length +
                        mapWeight (mapInsert (mapInsert sc.message_map mid
                          (attemptSend send now st).1)
                          st.message_id
                          { (attemptSend send now st).1 with
                            next_retry_at :=
                              (attemptSend send now st).1.created_at +
                              MessageState.RETRY_SCHEDULE.getD
                                (attemptSend send now st).1.attempt_count 0 }) ≤ f'
                      rw [heapPush_length]
                      omega
                    · show (heapPush rest ((attemptSend send now st).1.created_at
                        + MessageState.RETRY_SCHEDULE.getD
                          (attemptSend send now st).1.attempt_count 0,
                        st.message_id)).length +
                        mapWeight (mapInsert (mapInsert sc.message_map mid
                          (attemptSend send now st).1)
                          st.message_id
                          { (attemptSend send now st).1 with
                            next_retry_at :=
                              (attemptSend send now st).1.created_at +
                              MessageState.RETRY_SCHEDULE.getD
                                (attemptSend send now st).1.attempt_count 0 }) ≤ g'
                      rw [heapPush_length]
                      omega

theorem wakeup_run_eq (send : SendFun) (now : Int) (sc : Sched)
    (hrun : sc.running = true) :
    wakeup send now sc = wakeupGo send now (msize sc) sc := by
  simp only [wakeup, hrun, if_true]

theorem wakeup_eq_of_le (send : SendFun) (now : Int) (sc : Sched) (m : Nat)
    (hrun : sc.running = true) (hwf : wfKeys sc.message_map)
    (hle : msize sc ≤ m) :
    wakeupGo send now m sc = wakeup send now sc := by
  rw [wakeup_run_eq send now sc hrun]
  exact wakeupGo_eq_any send now (msize sc) sc m (msize sc) rfl hwf hle
    (Nat.le_refl _)

/-- Faithfulness certificate for the fuelled drain: on well-keyed running
states, `wakeup` satisfies exactly the recursion of the while loop in
SMSScheduler.wakeup, with `wakeup` itself in the recursive positions, so
the fuel `msize sc` is invisible: the model computes the loop's unique
terminating fixpoint. -/
theorem wakeup_fix (send : SendFun) (now : Int) (sc : Sched)
    (hwf : wfKeys sc.message_map) (hrun : sc.running = true) :
    wakeup send now sc =
      match sc.retry_heap with
      | [] => sc
      | (next_time, message_id) :: rest =>
        if next_time > now then sc
        else
          let sc1 := { sc with retry_heap := rest }
          match mapLookup sc1.message_map message_id with
          | none => wakeup send now sc1
          | some st =>
            if st.status ≠ MessageStatus.PENDING then wakeup send now sc1
            else
              let r := attemptSend send now st
              let sc2 := { sc1 with
                message_map := mapInsert sc1.message_map message_id r.1,
                events := sc1.events ++ [Event.sendCall message_id now st] }
              if r.2 then wakeup send now (handleSuccess now r.1 sc2)
              else
                if MessageState.MAX_ATTEMPTS ≤ r.1.attempt_count then
                  wakeup send now (handleFailure now r.1 sc2)
                else wakeup send now (scheduleNextRetry r.1 sc2) := by
  rw [wakeup_run_eq send now sc hrun]
  cases hheap : sc.retry_heap with
  | nil =>
    rw [wakeupGo_nil_heap send now (msize sc) sc hheap]
  | cons e rest =>
    obtain ⟨t, mid⟩ := e
    have hpos : rest.length + 1 + mapWeight sc.message_map = msize sc := by
      show _ = sc.retry_heap.length + _
      rw [hheap]
      simp
    obtain ⟨m, hm⟩ : ∃ m, msize sc = m + 1 :=
      ⟨rest.length + mapWeight sc.message_map, by omega⟩
    rw [hm, wakeupGo, hheap]
    dsimp only
    by_cases htg : t > now
    · rw [if_pos htg, if_pos htg]
    · rw [if_neg htg, if_neg htg]
      cases hlook : mapLookup sc.message_map mid with
      | none =>
        dsimp only
        refine wakeup_eq_of_le send now _ m hrun hwf ?_
        show rest.length + mapWeight sc.message_map ≤ m
        omega
      | some st =>
        dsimp only
        by_cases hst : st.status ≠ MessageStatus.PENDING
        · rw [if_pos hst, if_pos hst]
          refine wakeup_eq_of_le send now _ m hrun hwf ?_
          show rest.length + mapWeight sc.message_map ≤ m
          omega
        · rw [if_neg hst, if_neg hst]
          have hstmid : st.message_id = mid := wfKeys_lookup hwf hlook
          by_cases hr2 : (attemptSend send now st).2 = true
          · rw [if_pos hr2, if_pos hr2]
            have hwle := weight_after_terminal send now hlook st.message_id
            refine wakeup_eq_of_le send now _ m hrun
              (wfKeys_mapErase (wfKeys_mapInsert hwf hstmid)) ?_
            show rest.length + mapWeight (mapErase (mapInsert
              sc.message_map mid (attemptSend send now st).1)
              st.message_id) ≤ m
            omega
          · rw [if_neg hr2, if_neg hr2]
            by_cases hmax : MessageState.MAX_ATTEMPTS ≤
                (attemptSend send now st).1.attempt_count
            · rw [if_pos hmax, if_pos hmax]
              have hwle := weight_after_terminal send now hlook st.message_id
              refine wakeup_eq_of_le send now _ m hrun
                (wfKeys_mapErase (wfKeys_mapInsert hwf hstmid)) ?_
              show rest.length + mapWeight (mapErase (mapInsert
                sc.message_map mid (attemptSend send now st).1)
                st.message_id) ≤ m
              omega
            · rw [if_neg hmax, if_neg hmax]
              have hc1 : st.attempt_count + 1 < 6 := Nat.lt_of_not_le hmax
              have hc1' : (attemptSend send now st).1.attempt_count < 6 := hc1
              rw [scheduleNextRetry_eq _ _ hc1']
              have hwlt := weight_after_schedule send now hlook hwf hc1
                { (attemptSend send now st).1 with
                  next_retry_at := (attemptSend send now st).1.created_at +
                    MessageState.RETRY_SCHEDULE.getD
                      (attemptSend send now st).1.attempt_count 0 } rfl
              refine wakeup_eq_of_le send now _ m hrun
                (wfKeys_mapInsert (wfKeys_mapInsert hwf hstmid) rfl) ?_
              show (heapPush rest ((attemptSend send now st).1.created_at
                + MessageState.RETRY_SCHEDULE.getD
                  (attemptSend send now st).1.attempt_count 0,
                st.message_id)).length +
                mapWeight (mapInsert (mapInsert sc.message_map mid
                  (attemptSend send now st).1)
                  st.message_id
                  { (attemptSend send now st).1 with
                    next_retry_at :=
                      (attemptSend send now st).1.created_at +
                      MessageState.RETRY_SCHEDULE.getD
                        (attemptSend send now st).1.attempt_count 0 }) ≤ m
              rw [heapPush_length]
              omega

def c10msg : Message :=
  { message_id := "w10", content := "ok", metadata := none }

def c10send : SendFun := fun _ _ => SendRes.ok true

/-- Concrete instantiation of the C10 theorem: one fresh message whose
first send succeeds immediately, followed by a later tick; the run's only
persistence event for the id is the single mark_success, and no
save_message_state for the id ever occurs. -/
theorem C10_first_success_no_pending_write_witness :
    (c10msg.message_id ∉ intakeIds [] ∧
      c10msg.message_id ∉ intakeIds [Op.tick 1000] ∧
      c10send c10msg 0 = SendRes.ok true) ∧
    (persistFor (run c10send init₀
          ([] ++ Op.intake 7 c10msg :: [Op.tick 1000])).events
        c10msg.message_id =
      [Event.markSuccess c10msg.message_id
        { message_id := c10msg.message_id, message := c10msg,
          attempt_count := 1, next_retry_at := 7,
          status := MessageStatus.SUCCESS, created_at := 7,
          updated_at := 7 }] ∧
      ∀ st : MessageState, Event.saveState c10msg.message_id st ∉
        (run c10send init₀
          ([] ++ Op.intake 7 c10msg :: [Op.tick 1000])).events) :=
  ⟨⟨List.not_mem_nil _, List.not_mem_nil _, rfl⟩,
    C10_first_success_no_pending_write c10send [] [Op.tick 1000] 7 c10msg
      (List.not_mem_nil _) (List.not_mem_nil _) rfl⟩
